import Mathlib

/-!
Shallow embedding of the myshell parse-and-execute pipeline.

The embedding follows the C sources:
  * `tokenize` / `push_token`            (src/parser.c)
  * `parse_line`, `build_argv`, `is_op`,
    `free_pipeline`                      (src/parser.c, full version in the
                                          unnamed source file part_003)
  * `execute_pipeline`                   (src/exec.c)
  * `create_pipes`, `close_all_pipes`,
    `connect_pipes_for_child`            (src/pipe.c)
  * `apply_redirections`                 (src/redir.c, unnamed part_002)

Pure string processing is translated directly.  OS effects are embedded as
follows: file-descriptor bindings of a child process are a record of three
symbolic targets (inherited stream, pipe endpoint, named file); the parent
side syscalls (`malloc`, `pipe`, `fork`, `waitpid`) are driven by an oracle
environment recording which calls succeed and which wait status each child
reports.  Heap ownership of a `Pipeline` is embedded with `Option` fields
(`none` models a NULL pointer).
-/

namespace MyShell

/-! ## Tokenizer (src/parser.c, `tokenize`)

The C tokenizer walks the line with a cursor: it skips whitespace, emits the
two-character operator `2>` when it sees `'2'` followed by `'>'`, emits each
of `<`, `>`, `|` as a standalone token, and otherwise accumulates a word,
stopping the word early at whitespace, at an operator character, or where a
`2>` sequence begins.  `push_token` with `len <= 0` pushes nothing, which is
`flushTok` of an empty accumulator here.  The embedding fuses the outer loop
and the inner word loop into one pass carrying the current word run `acc`;
both loops test the very same stop conditions, so the fused pass emits the
identical token sequence. -/

/-- The whitespace characters accepted by C `isspace` in the default locale. -/
def isWsp (c : Char) : Bool :=
  c == ' ' || c == '\t' || c == '\n' || c == '\x0b' || c == '\x0c' || c == '\r'

/-- The single-character operators `<`, `>`, `|` of the tokenizer. -/
def isOpChar (c : Char) : Bool :=
  c == '<' || c == '>' || c == '|'

/-- Emit the pending word run, if any (`push_token` ignores empty runs). -/
def flushTok (acc : List Char) : List String :=
  if acc.isEmpty then [] else [String.mk acc]

/-- The tokenizer loop of `tokenize`: `acc` is the word run read so far. -/
def tokAux : List Char → List Char → List String
  | acc, [] => flushTok acc
  | acc, c :: rest =>
    if isWsp c then
      flushTok acc ++ tokAux [] rest
    else if c == '2' && rest.headD ' ' == '>' then
      match rest with
      | [] => flushTok acc ++ ["2>"]
      | _ :: rest2 => flushTok acc ++ ("2>" :: tokAux [] rest2)
    else if isOpChar c then
      flushTok acc ++ (String.mk [c] :: tokAux [] rest)
    else
      tokAux (acc ++ [c]) rest

/-- `tokenize` of src/parser.c: split a raw line into word and operator
tokens. -/
def tokenize (line : String) : List String :=
  tokAux [] line.data

/-! ## Parser data model (include/parser.h) -/

/-- One pipeline stage (`Command` of parser.h).  A successfully parsed
command always owns a NULL-terminated `argv`; the embedding keeps it as a
plain list.  A `none` redirection field models a NULL pointer. -/
structure Command where
  argv : List String
  in_file : Option String
  out_file : Option String
  err_file : Option String
deriving Repr, DecidableEq

/-- Result of `parse_line`: the C function returns 1 with an empty error
buffer on a blank line, 1 with a message on a syntax error, and 0 with a
filled `Pipeline` on success. -/
inductive ParseResult where
  | blank
  | error (msg : String)
  | ok (cmds : List Command)
deriving Repr, DecidableEq

/-- The three redirection operator tokens. -/
def redirOp (t : String) : Bool :=
  t == "<" || t == ">" || t == "2>"

/-- `is_op` of src/parser.c. -/
def isOp (t : String) : Bool :=
  t == "<" || t == ">" || t == "2>" || t == "|"

/-- Number of `|` tokens (the command-counting loop of `parse_line`). -/
def countPipes (tokens : List String) : Nat :=
  tokens.countP (fun t => t == "|")

/-- The adjacent-pipe scan of `parse_line` (the `| |` check). -/
def hasAdjPipes : List String → Bool
  | a :: b :: rest => (a == "|" && b == "|") || hasAdjPipes (b :: rest)
  | _ => false

/-- Segmentation of the token list at `|` boundaries, exactly as the
`seg_start`/`seg_end` walk of `parse_line`: each `|` or the end of input
closes a segment. -/
def splitPipes : List String → List (List String)
  | [] => [[]]
  | t :: rest =>
    if t == "|" then [] :: splitPipes rest
    else
      match splitPipes rest with
      | [] => [[t]]
      | s :: ss => (t :: s) :: ss

/-- The message chosen by `parse_line` when `>` lacks a filename: the
special variant is used iff `n_cmds > 1 && seg_end == ntok`, i.e. in the
final segment of a multi-command pipeline. -/
def outFileMsg (multi lastSeg : Bool) : String :=
  if multi && lastSeg then "Output file not specified after redirection."
  else "Output file not specified."

/-- The per-segment redirection scan of `parse_line` (the `j` loop): at each
`<`, `>`, `2>` the following token must exist inside the segment and must
not be an operator; the filename is recorded (overwriting any earlier one
for the same operator, `last one wins`) and skipped.  `multi` is
`n_cmds > 1`; `lastSeg` is `seg_end == ntok`. -/
def scanRedirs (multi lastSeg : Bool) :
    List String → Option String → Option String → Option String →
      Except String (Option String × Option String × Option String)
  | [], i, o, e => .ok (i, o, e)
  | t :: rest, i, o, e =>
    if t == "<" then
      match rest with
      | [] => .error "Input file not specified."
      | f :: rest2 =>
        if isOp f then .error "Input file not specified."
        else scanRedirs multi lastSeg rest2 (some f) o e
    else if t == ">" then
      match rest with
      | [] => .error (outFileMsg multi lastSeg)
      | f :: rest2 =>
        if isOp f then .error (outFileMsg multi lastSeg)
        else scanRedirs multi lastSeg rest2 i (some f) e
    else if t == "2>" then
      match rest with
      | [] => .error "Error output file not specified."
      | f :: rest2 =>
        if isOp f then .error "Error output file not specified."
        else scanRedirs multi lastSeg rest2 i o (some f)
    else scanRedirs multi lastSeg rest i o e

/-- `build_argv` of src/parser.c: collect the word tokens of a segment,
skipping each redirection operator together with the token that follows it,
and skipping `|`. -/
def build_argv : List String → List String
  | [] => []
  | t :: rest =>
    if redirOp t then
      match rest with
      | [] => []
      | _ :: rest2 => build_argv rest2
    else if t == "|" then build_argv rest
    else t :: build_argv rest

/-- Processing of one command segment in `parse_line`: validate and record
redirections, build `argv`, and require at least one argv word. -/
def parseSeg (multi lastSeg : Bool) (seg : List String) : Except String Command :=
  match scanRedirs multi lastSeg seg none none none with
  | .error m => .error m
  | .ok (i, o, e) =>
    let argv := build_argv seg
    if argv.isEmpty then .error "Command missing after pipe."
    else .ok { argv := argv, in_file := i, out_file := o, err_file := e }

/-- Left-to-right processing of all command segments; only the final
segment has `seg_end == ntok`. -/
def parseSegs (multi : Bool) : List (List String) → Except String (List Command)
  | [] => .ok []
  | seg :: rest =>
    match parseSeg multi rest.isEmpty seg with
    | .error m => .error m
    | .ok c =>
      match parseSegs multi rest with
      | .error m => .error m
      | .ok cs => .ok (c :: cs)

/-- `parse_line` after tokenization: the pipe-placement checks run over the
whole token sequence first, then the tokens are segmented and each segment
is validated. -/
def parse_tokens : List String → ParseResult
  | [] => .blank
  | t0 :: rest =>
    if t0 == "|" then .error "Command missing after pipe."
    else if (t0 :: rest).getLastD "" == "|" then .error "Command missing after pipe."
    else if hasAdjPipes (t0 :: rest) then .error "Empty command between pipes."
    else
      match parseSegs (decide (1 < countPipes (t0 :: rest) + 1)) (splitPipes (t0 :: rest)) with
      | .error m => .error m
      | .ok cs => .ok cs

/-- `parse_line` of src/parser.c. -/
def parse_line (line : String) : ParseResult :=
  parse_tokens (tokenize line)

/-! ## Specification-side descriptions used to state the claims -/

/-- The operator token at which the sequential redirection scan of a segment
first fails (next token missing or itself an operator), skipping consumed
filename tokens exactly as the scan does. -/
def firstBadRedir : List String → Option String
  | [] => none
  | t :: rest =>
    if redirOp t then
      match rest with
      | [] => some t
      | f :: rest2 => if isOp f then some t else firstBadRedir rest2
    else firstBadRedir rest

/-- The operator-specific missing-filename message. -/
def msgForRedir (op : String) (multi lastSeg : Bool) : String :=
  if op == "<" then "Input file not specified."
  else if op == "2>" then "Error output file not specified."
  else outFileMsg multi lastSeg

/-- A segment is redirection-well-formed when every occurrence of `<`, `>`,
`2>` is immediately followed, inside the segment, by a non-operator token. -/
def redirsWellFormed : List String → Bool
  | [] => true
  | t :: rest =>
    if redirOp t then
      match rest with
      | [] => false
      | f :: _ => !isOp f && redirsWellFormed rest
    else redirsWellFormed rest

/-- The token immediately following the last occurrence of `op`. -/
def lastFileAfter (op : String) : List String → Option String
  | [] => none
  | t :: rest =>
    match lastFileAfter op rest with
    | some x => some x
    | none => if t == op then rest.head? else none

/-- Overwrite-if-present, describing the `last one wins` accumulation. -/
def overrideOpt (new old : Option String) : Option String :=
  match new with
  | some f => some f
  | none => old

/-- The command a well-formed segment parses to: its argv and, for each
redirection kind, the filename after the last occurrence of the operator. -/
def cmdOfSeg (s : List String) : Command :=
  { argv := build_argv s
  , in_file := lastFileAfter "<" s
  , out_file := lastFileAfter ">" s
  , err_file := lastFileAfter "2>" s }

/-- Success test for `Except`. -/
def exceptOk {ε α : Type} : Except ε α → Bool
  | .ok _ => true
  | .error _ => false

/-! ## Heap-level pipeline state (for `free_pipeline`, src/parser.c)

`CPipeline` mirrors the raw C struct: `cmds = none` is a NULL pointer,
`cmds = some cs` an allocated array whose true allocation length is
`cs.length`, while `n_cmds` is the separately stored count the free loop
trusts.  `free_pipeline` returns `none` (a fault) only if the loop would
index past the allocation; freeing `Option` fields is always safe because
C `free(NULL)` is a no-op. -/

/-- Raw command struct: every field can be NULL. -/
structure CCommand where
  argv : Option (List String)
  in_file : Option String
  out_file : Option String
  err_file : Option String
deriving Repr, DecidableEq

/-- Raw pipeline struct. -/
structure CPipeline where
  cmds : Option (List CCommand)
  n_cmds : Nat
deriving Repr, DecidableEq

/-- The reusable empty state (`cmds == NULL`, `n_cmds == 0`). -/
def emptyCPipeline : CPipeline := { cmds := none, n_cmds := 0 }

/-- `free_pipeline` of src/parser.c: on a NULL `cmds` it only resets
`n_cmds`; otherwise it frees the first `n_cmds` commands (each field freed
with `free`, safe on NULL) and the array, then resets both fields. -/
def free_pipeline (p : CPipeline) : Option CPipeline :=
  match p.cmds with
  | none => some emptyCPipeline
  | some cs =>
    if p.n_cmds ≤ cs.length then some emptyCPipeline else none

/-- The raw struct a successfully parsed command occupies. -/
def toCCommand (c : Command) : CCommand :=
  { argv := some c.argv
  , in_file := c.in_file
  , out_file := c.out_file
  , err_file := c.err_file }

/-- The state `parse_line` leaves in its `out` argument when it returns:
`pipeline_init` makes it empty; the `fail:` label calls `free_pipeline` on
the partially filled struct, which resets it to the empty state; on success
the struct holds the `n_cmds` parsed commands. -/
def parse_line_out (line : String) : CPipeline :=
  match parse_line line with
  | .blank => emptyCPipeline
  | .error _ => emptyCPipeline
  | .ok cs => { cmds := some (cs.map toCCommand), n_cmds := cs.length }

/-! ## Child file-descriptor state (src/pipe.c and src/redir.c)

A descriptor binding is symbolic: the stream inherited from the shell, a
pipe endpoint (`pipe_fds[i][0]` read end, `pipe_fds[i][1]` write end), or an
opened named file.  `dup2` is modeled as assignment of the binding; the
close calls that follow every `dup2` in the C code only discard the spare
raw descriptor and do not change which object a standard stream denotes. -/

/-- What a standard descriptor is bound to. -/
inductive FdBind where
  | inherited
  | pRead (i : Nat)
  | pWrite (i : Nat)
  | file (name : String)
deriving Repr, DecidableEq

/-- Bindings of the three standard descriptors of one child. -/
structure ChildFds where
  stdin : FdBind
  stdout : FdBind
  stderr : FdBind
deriving Repr, DecidableEq

/-- Descriptors as inherited from the shell at `fork` time. -/
def initFds : ChildFds :=
  { stdin := .inherited, stdout := .inherited, stderr := .inherited }

/-- `connect_pipes_for_child` of src/pipe.c: bind stdin to the read end of
pipe `cmd_idx - 1` when `cmd_idx > 0`, and stdout to the write end of pipe
`cmd_idx` when `cmd_idx < n_cmds - 1`; then close all raw pipe fds. -/
def connect_pipes_for_child (cmd_idx n_cmds : Nat) (s : ChildFds) : ChildFds :=
  let s1 := if 0 < cmd_idx then { s with stdin := FdBind.pRead (cmd_idx - 1) } else s
  if cmd_idx < n_cmds - 1 then { s1 with stdout := FdBind.pWrite cmd_idx } else s1

/-- Error redirection of `apply_redirections` (src/redir.c): open the file
for writing (create/truncate) and `dup2` it onto stderr.  `perror` output is
modeled as the filename tagged with the failing call. -/
def applyErrRedir (openOk : String → Bool) (c : Command) (s : ChildFds) :
    Except String ChildFds :=
  match c.err_file with
  | some f =>
    if openOk f then .ok { s with stderr := FdBind.file f }
    else .error (f ++ ": open failed")
  | none => .ok s

/-- Output redirection of `apply_redirections`, then the error one. -/
def applyOutRedir (openOk : String → Bool) (c : Command) (s : ChildFds) :
    Except String ChildFds :=
  match c.out_file with
  | some f =>
    if openOk f then applyErrRedir openOk c { s with stdout := FdBind.file f }
    else .error (f ++ ": open failed")
  | none => applyErrRedir openOk c s

/-- `apply_redirections` of src/redir.c: input, then output, then error;
the first failure aborts (the child then exits with status 1).  A missing
input file produces the fixed message "File not found.". -/
def apply_redirections (openOk : String → Bool) (c : Command) (s : ChildFds) :
    Except String ChildFds :=
  match c.in_file with
  | some f =>
    if openOk f then applyOutRedir openOk c { s with stdin := FdBind.file f }
    else .error "File not found."
  | none => applyOutRedir openOk c s

/-- The descriptor state of child `cmd_idx` after step (a) of the child
block of `execute_pipeline`: pipes are wired only when `n_pipes > 0`. -/
def child_wiring (cmd_idx n_cmds : Nat) : ChildFds :=
  if 0 < n_cmds - 1 then connect_pipes_for_child cmd_idx n_cmds initFds else initFds

/-- Outcome of one child between `fork` and its end: either the image was
replaced (`execvp` succeeded) or the child exited, having printed the listed
diagnostics. -/
inductive ChildResult where
  | execed (argv : List String) (fds : ChildFds)
  | exited (code : Nat) (msgs : List String)
deriving Repr, DecidableEq

/-- The diagnostic printed when `execvp` returns. -/
def exec_fail_msg (n_cmds : Nat) : String :=
  if n_cmds == 1 then "Command not found." else "Command not found in pipe sequence."

/-- The child block of `execute_pipeline` (src/exec.c): wire pipes, apply
redirections (exit 1 on failure), then `execvp`; if the exec call returns,
print the fixed diagnostic and exit 127.  `execOk` tells whether the image
replacement succeeds. -/
def run_child (openOk : String → Bool) (execOk : Bool) (n_cmds cmd_idx : Nat)
    (c : Command) : ChildResult :=
  match apply_redirections openOk c (child_wiring cmd_idx n_cmds) with
  | .error m => .exited 1 [m]
  | .ok fds =>
    if execOk then .execed c.argv fds
    else .exited 127 [exec_fail_msg n_cmds]

/-! ## Parent-side orchestration (src/exec.c) -/

/-- Wait status of a child, as decoded with `WIFEXITED`/`WEXITSTATUS`. -/
inductive WaitStatus where
  | exited (code : Nat)
  | signaled (sig : Nat)

/-- Oracle for the parent-side system calls and the children's statuses. -/
structure ExecEnv where
  pipeAllocOk : Bool
  pipeOk : Nat → Bool
  pidsAllocOk : Bool
  forkOk : Nat → Bool
  status : Nat → WaitStatus

/-- `create_pipes` of src/pipe.c starting at index `i` with `k` pipes left:
returns whether all `pipe` calls succeeded and how many pipes were created
(on failure the already created ones are closed before returning). -/
def create_pipes_aux (pipeOk : Nat → Bool) : Nat → Nat → Bool × Nat
  | _, 0 => (true, 0)
  | i, k + 1 =>
    if pipeOk i then
      let r := create_pipes_aux pipeOk (i + 1) k
      (r.1, r.2 + 1)
    else (false, 0)

/-- `create_pipes` of src/pipe.c. -/
def create_pipes (pipeOk : Nat → Bool) (n_pipes : Nat) : Bool × Nat :=
  create_pipes_aux pipeOk 0 n_pipes

/-- Index of the first failing `fork`, among `k` remaining children
starting at child `i`. -/
def firstForkFailAux (forkOk : Nat → Bool) : Nat → Nat → Option Nat
  | _, 0 => none
  | i, k + 1 => if forkOk i then firstForkFailAux forkOk (i + 1) k else some i

/-- Index of the first failing `fork` in the fork loop, if any. -/
def firstForkFail (forkOk : Nat → Bool) (n : Nat) : Option Nat :=
  firstForkFailAux forkOk 0 n

/-- Status conversion of the wait loop: normal exit reports the exit code,
a signal death is treated as failure (status 1). -/
def lastExitInt : WaitStatus → Int
  | .exited c => (c : Int)
  | .signaled _ => 1

/-- Observable outcome of `execute_pipeline`: the returned value, the
number of successful `pipe` calls, and the number of children waited for. -/
structure ExecTrace where
  ret : Int
  pipesCreated : Nat
  waited : Nat
deriving Repr, DecidableEq

/-- `execute_pipeline` of src/exec.c over the syscall oracle: NULL or empty
pipeline returns 0; `malloc`/`pipe`/`fork` failures clean up and return -1
(a failing fork first waits for the children already spawned); otherwise all
children are forked, the parent closes its pipe ends, waits for every child
and returns the last child's status (1 if it died of a signal). -/
def execute_pipeline (env : ExecEnv) (p : Option (List Command)) : ExecTrace :=
  match p with
  | none => { ret := 0, pipesCreated := 0, waited := 0 }
  | some cmds =>
    let n := cmds.length
    if n == 0 then { ret := 0, pipesCreated := 0, waited := 0 }
    else
      let n_pipes := n - 1
      if 0 < n_pipes && !env.pipeAllocOk then
        { ret := -1, pipesCreated := 0, waited := 0 }
      else
        let cp := create_pipes env.pipeOk n_pipes
        if 0 < n_pipes && !cp.1 then
          { ret := -1, pipesCreated := cp.2, waited := 0 }
        else if !env.pidsAllocOk then
          { ret := -1, pipesCreated := cp.2, waited := 0 }
        else
          match firstForkFail env.forkOk n with
          | some i => { ret := -1, pipesCreated := cp.2, waited := i }
          | none =>
            { ret := lastExitInt (env.status (n - 1))
            , pipesCreated := cp.2
            , waited := n }

/-- A parent-side system call performed for an `n`-command pipeline fails:
the pipe-array allocation or a `pipe` call (only attempted when
`n_pipes > 0`), the pid-array allocation, or some `fork`. -/
def parent_fail (env : ExecEnv) (n : Nat) : Bool :=
  (decide (0 < n - 1) && (!env.pipeAllocOk || !(create_pipes env.pipeOk (n - 1)).1)) ||
  !env.pidsAllocOk || (firstForkFail env.forkOk n).isSome

/-! ## Lemmas about segmentation -/

theorem splitPipes_ne_nil (l : List String) : splitPipes l ≠ [] := by
  match l with
  | [] => simp [splitPipes]
  | t :: rest =>
    simp only [splitPipes]
    split
    · simp
    · split <;> simp

theorem splitPipes_length (l : List String) :
    (splitPipes l).length = countPipes l + 1 := by
  induction l with
  | nil => simp [splitPipes, countPipes]
  | cons t rest ih =>
    simp only [splitPipes, countPipes, List.countP_cons]
    by_cases h : t == "|"
    · rw [if_pos h]
      simp only [h, if_true, List.length_cons]
      simpa [countPipes] using ih
    · rw [if_neg h]
      rcases hs : splitPipes rest with _ | ⟨s, ss⟩
      · exact absurd hs (splitPipes_ne_nil rest)
      · simp only [h, if_false, List.length_cons]
        have := ih
        rw [hs] at this
        simpa [countPipes] using this

theorem splitPipes_no_pipe (l : List String) :
    ∀ s ∈ splitPipes l, ∀ t ∈ s, t ≠ "|" := by
  induction l with
  | nil =>
    intro s hs t ht
    simp [splitPipes] at hs
    subst hs
    simp at ht
  | cons a rest ih =>
    intro s hs t ht
    simp only [splitPipes] at hs
    by_cases h : a == "|"
    · rw [if_pos h] at hs
      rcases List.mem_cons.mp hs with h1 | h1
      · subst h1; simp at ht
      · exact ih s h1 t ht
    · rw [if_neg h] at hs
      rcases hsp : splitPipes rest with _ | ⟨s0, ss⟩
      · exact absurd hsp (splitPipes_ne_nil rest)
      · rw [hsp] at hs
        rcases List.mem_cons.mp hs with h1 | h1
        · subst h1
          rcases List.mem_cons.mp ht with h2 | h2
          · subst h2
            simpa using h
          · have hmem : s0 ∈ splitPipes rest := by rw [hsp]; exact List.mem_cons_self _ _
            exact ih s0 hmem t h2
        · have hmem : s ∈ splitPipes rest := by rw [hsp]; exact List.mem_cons_of_mem _ h1
          exact ih s hmem t ht

/-! ## Step equations for the recursive parser functions -/

theorem redirsWellFormed_nil : redirsWellFormed [] = true := rfl

theorem redirsWellFormed_redir_nil (t : String) (h : redirOp t = true) :
    redirsWellFormed [t] = false := by
  unfold redirsWellFormed
  rw [h]
  simp

theorem redirsWellFormed_redir_cons (t f : String) (rest : List String)
    (h : redirOp t = true) :
    redirsWellFormed (t :: f :: rest) = (!isOp f && redirsWellFormed (f :: rest)) := by
  conv_lhs => unfold redirsWellFormed
  rw [h]
  simp

theorem scanRedirs_nil (multi lastSeg : Bool) (i o e : Option String) :
    scanRedirs multi lastSeg [] i o e = .ok (i, o, e) := by
  unfold scanRedirs
  rfl

theorem scanRedirs_in_nil (multi lastSeg : Bool) (i o e : Option String) :
    scanRedirs multi lastSeg ["<"] i o e = .error "Input file not specified." := by
  unfold scanRedirs
  simp

theorem scanRedirs_in_op (multi lastSeg : Bool) (f : String) (rest2 : List String)
    (i o e : Option String) (hf : isOp f = true) :
    scanRedirs multi lastSeg ("<" :: f :: rest2) i o e =
      .error "Input file not specified." := by
  unfold scanRedirs
  simp [hf]

theorem scanRedirs_in_ok (multi lastSeg : Bool) (f : String) (rest2 : List String)
    (i o e : Option String) (hf : isOp f = false) :
    scanRedirs multi lastSeg ("<" :: f :: rest2) i o e =
      scanRedirs multi lastSeg rest2 (some f) o e := by
  conv_lhs => unfold scanRedirs
  simp [hf]

theorem scanRedirs_out_nil (multi lastSeg : Bool) (i o e : Option String) :
    scanRedirs multi lastSeg [">"] i o e = .error (outFileMsg multi lastSeg) := by
  unfold scanRedirs
  simp

theorem scanRedirs_out_op (multi lastSeg : Bool) (f : String) (rest2 : List String)
    (i o e : Option String) (hf : isOp f = true) :
    scanRedirs multi lastSeg (">" :: f :: rest2) i o e =
      .error (outFileMsg multi lastSeg) := by
  unfold scanRedirs
  simp [hf]

theorem scanRedirs_out_ok (multi lastSeg : Bool) (f : String) (rest2 : List String)
    (i o e : Option String) (hf : isOp f = false) :
    scanRedirs multi lastSeg (">" :: f :: rest2) i o e =
      scanRedirs multi lastSeg rest2 i (some f) e := by
  conv_lhs => unfold scanRedirs
  simp [hf]

theorem scanRedirs_err_nil (multi lastSeg : Bool) (i o e : Option String) :
    scanRedirs multi lastSeg ["2>"] i o e =
      .error "Error output file not specified." := by
  unfold scanRedirs
  simp

theorem scanRedirs_err_op (multi lastSeg : Bool) (f : String) (rest2 : List String)
    (i o e : Option String) (hf : isOp f = true) :
    scanRedirs multi lastSeg ("2>" :: f :: rest2) i o e =
      .error "Error output file not specified." := by
  unfold scanRedirs
  simp [hf]

theorem scanRedirs_err_ok (multi lastSeg : Bool) (f : String) (rest2 : List String)
    (i o e : Option String) (hf : isOp f = false) :
    scanRedirs multi lastSeg ("2>" :: f :: rest2) i o e =
      scanRedirs multi lastSeg rest2 i o (some f) := by
  conv_lhs => unfold scanRedirs
  simp [hf]

theorem scanRedirs_skip (multi lastSeg : Bool) (t : String) (rest : List String)
    (i o e : Option String) (h1 : t ≠ "<") (h2 : t ≠ ">") (h3 : t ≠ "2>") :
    scanRedirs multi lastSeg (t :: rest) i o e =
      scanRedirs multi lastSeg rest i o e := by
  conv_lhs => unfold scanRedirs
  simp [h1, h2, h3]

theorem build_argv_nil : build_argv [] = [] := rfl

theorem build_argv_redir_nil (t : String) (h : redirOp t = true) :
    build_argv [t] = [] := by
  unfold build_argv
  rw [h]
  simp

theorem build_argv_redir_cons (t f : String) (rest : List String)
    (h : redirOp t = true) :
    build_argv (t :: f :: rest) = build_argv rest := by
  conv_lhs => unfold build_argv
  rw [h]
  simp

theorem build_argv_pipe (rest : List String) :
    build_argv ("|" :: rest) = build_argv rest := by
  conv_lhs => unfold build_argv
  simp [redirOp]

theorem build_argv_word (t : String) (rest : List String)
    (h1 : redirOp t = false) (h2 : t ≠ "|") :
    build_argv (t :: rest) = t :: build_argv rest := by
  conv_lhs => unfold build_argv
  rw [h1]
  simp [h2]

theorem firstBadRedir_nil : firstBadRedir [] = none := rfl

theorem firstBadRedir_redir_nil (t : String) (h : redirOp t = true) :
    firstBadRedir [t] = some t := by
  unfold firstBadRedir
  rw [h]
  simp

theorem firstBadRedir_redir_op (t f : String) (rest : List String)
    (h : redirOp t = true) (hf : isOp f = true) :
    firstBadRedir (t :: f :: rest) = some t := by
  unfold firstBadRedir
  rw [h]
  simp [hf]

theorem firstBadRedir_redir_ok (t f : String) (rest : List String)
    (h : redirOp t = true) (hf : isOp f = false) :
    firstBadRedir (t :: f :: rest) = firstBadRedir rest := by
  conv_lhs => unfold firstBadRedir
  rw [h]
  simp [hf]

theorem firstBadRedir_skip (t : String) (rest : List String)
    (h : redirOp t = false) :
    firstBadRedir (t :: rest) = firstBadRedir rest := by
  conv_lhs => unfold firstBadRedir
  rw [h]
  simp

theorem parseSeg_of_scan_error (multi lastSeg : Bool) (seg : List String)
    (m : String) (h : scanRedirs multi lastSeg seg none none none = .error m) :
    parseSeg multi lastSeg seg = .error m := by
  unfold parseSeg
  rw [h]

theorem parseSeg_of_scan_ok (multi lastSeg : Bool) (seg : List String)
    (i o e : Option String)
    (h : scanRedirs multi lastSeg seg none none none = .ok (i, o, e)) :
    parseSeg multi lastSeg seg =
      if (build_argv seg).isEmpty then .error "Command missing after pipe."
      else .ok { argv := build_argv seg, in_file := i, out_file := o, err_file := e } := by
  unfold parseSeg
  rw [h]

theorem parseSegs_nil (multi : Bool) : parseSegs multi [] = .ok [] := by
  unfold parseSegs
  rfl

theorem parseSegs_cons_err (multi : Bool) (seg : List String)
    (rest : List (List String)) (m : String)
    (h : parseSeg multi rest.isEmpty seg = .error m) :
    parseSegs multi (seg :: rest) = .error m := by
  conv_lhs => unfold parseSegs
  rw [h]

theorem parseSegs_cons_ok_err (multi : Bool) (seg : List String)
    (rest : List (List String)) (c : Command) (m : String)
    (h1 : parseSeg multi rest.isEmpty seg = .ok c)
    (h2 : parseSegs multi rest = .error m) :
    parseSegs multi (seg :: rest) = .error m := by
  conv_lhs => unfold parseSegs
  rw [h1, h2]

theorem parseSegs_cons_ok_ok (multi : Bool) (seg : List String)
    (rest : List (List String)) (c : Command) (cs : List Command)
    (h1 : parseSeg multi rest.isEmpty seg = .ok c)
    (h2 : parseSegs multi rest = .ok cs) :
    parseSegs multi (seg :: rest) = .ok (c :: cs) := by
  conv_lhs => unfold parseSegs
  rw [h1, h2]

theorem parse_tokens_nil : parse_tokens [] = .blank := rfl

theorem parse_tokens_head_pipe (rest : List String) :
    parse_tokens ("|" :: rest) = .error "Command missing after pipe." := by
  unfold parse_tokens
  simp

theorem parse_tokens_last_pipe (t0 : String) (rest : List String)
    (h1 : t0 ≠ "|") (h2 : (t0 :: rest).getLastD "" = "|") :
    parse_tokens (t0 :: rest) = .error "Command missing after pipe." := by
  have h2a : (t0 :: rest).getLast?.getD "" = "|" := by simpa using h2
  unfold parse_tokens
  simp [h1, h2a]

theorem parse_tokens_adj (t0 : String) (rest : List String)
    (h1 : t0 ≠ "|") (h2 : (t0 :: rest).getLastD "" ≠ "|")
    (h3 : hasAdjPipes (t0 :: rest) = true) :
    parse_tokens (t0 :: rest) = .error "Empty command between pipes." := by
  have h2a : ¬(t0 :: rest).getLast?.getD "" = "|" := by simpa using h2
  unfold parse_tokens
  simp [h1, h2a, h3]

theorem parse_tokens_run_err (t0 : String) (rest : List String) (m : String)
    (h1 : t0 ≠ "|") (h2 : (t0 :: rest).getLastD "" ≠ "|")
    (h3 : hasAdjPipes (t0 :: rest) = false)
    (h4 : parseSegs (decide (1 < countPipes (t0 :: rest) + 1)) (splitPipes (t0 :: rest)) =
      .error m) :
    parse_tokens (t0 :: rest) = .error m := by
  have h2a : ¬(t0 :: rest).getLast?.getD "" = "|" := by simpa using h2
  have h4a := h4
  simp only [Nat.lt_add_left_iff_pos] at h4a
  unfold parse_tokens
  simp [h1, h2a, h3, h4a]

theorem parse_tokens_run_ok (t0 : String) (rest : List String) (cs : List Command)
    (h1 : t0 ≠ "|") (h2 : (t0 :: rest).getLastD "" ≠ "|")
    (h3 : hasAdjPipes (t0 :: rest) = false)
    (h4 : parseSegs (decide (1 < countPipes (t0 :: rest) + 1)) (splitPipes (t0 :: rest)) =
      .ok cs) :
    parse_tokens (t0 :: rest) = .ok cs := by
  have h2a : ¬(t0 :: rest).getLast?.getD "" = "|" := by simpa using h2
  have h4a := h4
  simp only [Nat.lt_add_left_iff_pos] at h4a
  unfold parse_tokens
  simp [h1, h2a, h3, h4a]

/-! ## Lemmas about the redirection scan -/

theorem redirsWellFormed_cons_not (t : String) (rest : List String)
    (h : redirOp t = false) :
    redirsWellFormed (t :: rest) = redirsWellFormed rest := by
  simp [redirsWellFormed, h]

theorem lastFileAfter_cons_ne (op t : String) (rest : List String) (h : t ≠ op) :
    lastFileAfter op (t :: rest) = lastFileAfter op rest := by
  simp only [lastFileAfter]
  rcases lastFileAfter op rest with _ | x
  · simp [h]
  · simp

theorem lastFileAfter_cons_eq (op : String) (rest : List String) :
    lastFileAfter op (op :: rest) = overrideOpt (lastFileAfter op rest) rest.head? := by
  simp only [lastFileAfter, overrideOpt]
  rcases lastFileAfter op rest with _ | x <;> simp

theorem overrideOpt_none (old : Option String) : overrideOpt none old = old := rfl

theorem overrideOpt_some (f : String) (old : Option String) :
    overrideOpt (some f) old = some f := rfl

theorem overrideOpt_assoc (a b c : Option String) :
    overrideOpt (overrideOpt a b) c = overrideOpt a (overrideOpt b c) := by
  rcases a with _ | x <;> simp [overrideOpt]

theorem isOp_false_iff (t : String) :
    isOp t = false ↔ t ≠ "<" ∧ t ≠ ">" ∧ t ≠ "2>" ∧ t ≠ "|" := by
  simp [isOp]
  tauto

theorem redirOp_false_iff (t : String) :
    redirOp t = false ↔ t ≠ "<" ∧ t ≠ ">" ∧ t ≠ "2>" := by
  simp [redirOp]
  tauto

theorem redirOp_true_iff (t : String) :
    redirOp t = true ↔ t = "<" ∨ t = ">" ∨ t = "2>" := by
  simp [redirOp]
  tauto

theorem isOp_eq_or (t : String) : isOp t = (redirOp t || t == "|") := by
  simp [isOp, redirOp, Bool.or_assoc]

theorem redirOp_false_of_isOp_false (t : String) (h : isOp t = false) :
    redirOp t = false := by
  rw [isOp_eq_or] at h
  exact (Bool.or_eq_false_iff.mp h).1

/-- A well-formed segment scans successfully; for each redirection kind the
recorded filename is the one after the last occurrence of the operator
(`last one wins`), the accumulator surviving only if the operator never
occurs. -/
theorem scanRedirs_ok_of_wf :
    ∀ (n : Nat) (l : List String), l.length ≤ n → redirsWellFormed l = true →
      ∀ (multi lastSeg : Bool) (i o e : Option String),
        scanRedirs multi lastSeg l i o e =
          .ok (overrideOpt (lastFileAfter "<" l) i,
               overrideOpt (lastFileAfter ">" l) o,
               overrideOpt (lastFileAfter "2>" l) e) := by
  intro n
  induction n with
  | zero =>
    intro l hl hwf multi lastSeg i o e
    have hnil : l = [] := List.length_eq_zero.mp (Nat.le_zero.mp hl)
    subst hnil
    simp [scanRedirs_nil, lastFileAfter, overrideOpt]
  | succ n ih =>
    intro l hl hwf multi lastSeg i o e
    cases l with
    | nil => simp [scanRedirs_nil, lastFileAfter, overrideOpt]
    | cons t rest =>
      by_cases h1 : t = "<"
      · subst h1
        cases rest with
        | nil =>
          rw [redirsWellFormed_redir_nil _ (by decide)] at hwf
          cases hwf
        | cons f rest2 =>
          rw [redirsWellFormed_redir_cons _ _ _ (by decide)] at hwf
          have hf : isOp f = false := by
            cases hof : isOp f
            · rfl
            · rw [hof] at hwf; simp at hwf
          have hwf2 : redirsWellFormed (f :: rest2) = true := by
            rw [hf] at hwf; simpa using hwf
          have hrof : redirOp f = false := redirOp_false_of_isOp_false f hf
          have hwfr2 : redirsWellFormed rest2 = true := by
            rwa [redirsWellFormed_cons_not f rest2 hrof] at hwf2
          have hlen : rest2.length ≤ n := by
            simp only [List.length_cons] at hl; omega
          obtain ⟨hfin, hfout, hferr, _⟩ := isOp_false_iff f |>.mp hf
          rw [scanRedirs_in_ok multi lastSeg f rest2 i o e hf,
              ih rest2 hlen hwfr2 multi lastSeg (some f) o e]
          have e1 : lastFileAfter "<" ("<" :: f :: rest2) =
              overrideOpt (lastFileAfter "<" rest2) (some f) := by
            rw [lastFileAfter_cons_eq, lastFileAfter_cons_ne "<" f rest2 hfin]
            rfl
          have e2 : lastFileAfter ">" ("<" :: f :: rest2) = lastFileAfter ">" rest2 := by
            rw [lastFileAfter_cons_ne ">" "<" _ (by decide),
                lastFileAfter_cons_ne ">" f rest2 hfout]
          have e3 : lastFileAfter "2>" ("<" :: f :: rest2) = lastFileAfter "2>" rest2 := by
            rw [lastFileAfter_cons_ne "2>" "<" _ (by decide),
                lastFileAfter_cons_ne "2>" f rest2 hferr]
          rw [e1, e2, e3, overrideOpt_assoc, overrideOpt_some]
      · by_cases h2 : t = ">"
        · subst h2
          cases rest with
          | nil =>
            rw [redirsWellFormed_redir_nil _ (by decide)] at hwf
            cases hwf
          | cons f rest2 =>
            rw [redirsWellFormed_redir_cons _ _ _ (by decide)] at hwf
            have hf : isOp f = false := by
              cases hof : isOp f
              · rfl
              · rw [hof] at hwf; simp at hwf
            have hwf2 : redirsWellFormed (f :: rest2) = true := by
              rw [hf] at hwf; simpa using hwf
            have hrof : redirOp f = false := redirOp_false_of_isOp_false f hf
            have hwfr2 : redirsWellFormed rest2 = true := by
              rwa [redirsWellFormed_cons_not f rest2 hrof] at hwf2
            have hlen : rest2.length ≤ n := by
              simp only [List.length_cons] at hl; omega
            obtain ⟨hfin, hfout, hferr, _⟩ := isOp_false_iff f |>.mp hf
            rw [scanRedirs_out_ok multi lastSeg f rest2 i o e hf,
                ih rest2 hlen hwfr2 multi lastSeg i (some f) e]
            have e1 : lastFileAfter "<" (">" :: f :: rest2) = lastFileAfter "<" rest2 := by
              rw [lastFileAfter_cons_ne "<" ">" _ (by decide),
                  lastFileAfter_cons_ne "<" f rest2 hfin]
            have e2 : lastFileAfter ">" (">" :: f :: rest2) =
                overrideOpt (lastFileAfter ">" rest2) (some f) := by
              rw [lastFileAfter_cons_eq, lastFileAfter_cons_ne ">" f rest2 hfout]
              rfl
            have e3 : lastFileAfter "2>" (">" :: f :: rest2) = lastFileAfter "2>" rest2 := by
              rw [lastFileAfter_cons_ne "2>" ">" _ (by decide),
                  lastFileAfter_cons_ne "2>" f rest2 hferr]
            rw [e1, e2, e3, overrideOpt_assoc, overrideOpt_some]
        · by_cases h3 : t = "2>"
          · subst h3
            cases rest with
            | nil =>
              rw [redirsWellFormed_redir_nil _ (by decide)] at hwf
              cases hwf
            | cons f rest2 =>
              rw [redirsWellFormed_redir_cons _ _ _ (by decide)] at hwf
              have hf : isOp f = false := by
                cases hof : isOp f
                · rfl
                · rw [hof] at hwf; simp at hwf
              have hwf2 : redirsWellFormed (f :: rest2) = true := by
                rw [hf] at hwf; simpa using hwf
              have hrof : redirOp f = false := redirOp_false_of_isOp_false f hf
              have hwfr2 : redirsWellFormed rest2 = true := by
                rwa [redirsWellFormed_cons_not f rest2 hrof] at hwf2
              have hlen : rest2.length ≤ n := by
                simp only [List.length_cons] at hl; omega
              obtain ⟨hfin, hfout, hferr, _⟩ := isOp_false_iff f |>.mp hf
              rw [scanRedirs_err_ok multi lastSeg f rest2 i o e hf,
                  ih rest2 hlen hwfr2 multi lastSeg i o (some f)]
              have e1 : lastFileAfter "<" ("2>" :: f :: rest2) = lastFileAfter "<" rest2 := by
                rw [lastFileAfter_cons_ne "<" "2>" _ (by decide),
                    lastFileAfter_cons_ne "<" f rest2 hfin]
              have e2 : lastFileAfter ">" ("2>" :: f :: rest2) = lastFileAfter ">" rest2 := by
                rw [lastFileAfter_cons_ne ">" "2>" _ (by decide),
                    lastFileAfter_cons_ne ">" f rest2 hfout]
              have e3 : lastFileAfter "2>" ("2>" :: f :: rest2) =
                  overrideOpt (lastFileAfter "2>" rest2) (some f) := by
                rw [lastFileAfter_cons_eq, lastFileAfter_cons_ne "2>" f rest2 hferr]
                rfl
              rw [e1, e2, e3, overrideOpt_assoc, overrideOpt_some]
          · have hrot : redirOp t = false := (redirOp_false_iff t).mpr ⟨h1, h2, h3⟩
            have hwfr : redirsWellFormed rest = true := by
              rwa [redirsWellFormed_cons_not t rest hrot] at hwf
            have hlen : rest.length ≤ n := by
              simp only [List.length_cons] at hl; omega
            rw [scanRedirs_skip multi lastSeg t rest i o e h1 h2 h3,
                ih rest hlen hwfr multi lastSeg i o e,
                lastFileAfter_cons_ne "<" t rest (fun hx => h1 hx),
                lastFileAfter_cons_ne ">" t rest (fun hx => h2 hx),
                lastFileAfter_cons_ne "2>" t rest (fun hx => h3 hx)]

/-- A segment that scans successfully is redirection-well-formed. -/
theorem wf_of_scanRedirs_ok :
    ∀ (n : Nat) (l : List String), l.length ≤ n →
      ∀ (multi lastSeg : Bool) (i o e : Option String)
        (v : Option String × Option String × Option String),
        scanRedirs multi lastSeg l i o e = .ok v → redirsWellFormed l = true := by
  intro n
  induction n with
  | zero =>
    intro l hl multi lastSeg i o e v _
    have hnil : l = [] := List.length_eq_zero.mp (Nat.le_zero.mp hl)
    subst hnil
    rfl
  | succ n ih =>
    intro l hl multi lastSeg i o e v h
    cases l with
    | nil => rfl
    | cons t rest =>
      by_cases h1 : t = "<"
      · subst h1
        cases rest with
        | nil => rw [scanRedirs_in_nil] at h; cases h
        | cons f rest2 =>
          cases hf : isOp f with
          | true => rw [scanRedirs_in_op multi lastSeg f rest2 i o e hf] at h; cases h
          | false =>
            rw [scanRedirs_in_ok multi lastSeg f rest2 i o e hf] at h
            have hlen : rest2.length ≤ n := by
              simp only [List.length_cons] at hl; omega
            have hwf2 := ih rest2 hlen multi lastSeg (some f) o e v h
            rw [redirsWellFormed_redir_cons _ _ _ (by decide), hf,
                redirsWellFormed_cons_not f rest2 (redirOp_false_of_isOp_false f hf), hwf2]
            rfl
      · by_cases h2 : t = ">"
        · subst h2
          cases rest with
          | nil => rw [scanRedirs_out_nil] at h; cases h
          | cons f rest2 =>
            cases hf : isOp f with
            | true => rw [scanRedirs_out_op multi lastSeg f rest2 i o e hf] at h; cases h
            | false =>
              rw [scanRedirs_out_ok multi lastSeg f rest2 i o e hf] at h
              have hlen : rest2.length ≤ n := by
                simp only [List.length_cons] at hl; omega
              have hwf2 := ih rest2 hlen multi lastSeg i (some f) e v h
              rw [redirsWellFormed_redir_cons _ _ _ (by decide), hf,
                  redirsWellFormed_cons_not f rest2 (redirOp_false_of_isOp_false f hf), hwf2]
              rfl
        · by_cases h3 : t = "2>"
          · subst h3
            cases rest with
            | nil => rw [scanRedirs_err_nil] at h; cases h
            | cons f rest2 =>
              cases hf : isOp f with
              | true => rw [scanRedirs_err_op multi lastSeg f rest2 i o e hf] at h; cases h
              | false =>
                rw [scanRedirs_err_ok multi lastSeg f rest2 i o e hf] at h
                have hlen : rest2.length ≤ n := by
                  simp only [List.length_cons] at hl; omega
                have hwf2 := ih rest2 hlen multi lastSeg i o (some f) v h
                rw [redirsWellFormed_redir_cons _ _ _ (by decide), hf,
                    redirsWellFormed_cons_not f rest2 (redirOp_false_of_isOp_false f hf), hwf2]
                rfl
          · rw [scanRedirs_skip multi lastSeg t rest i o e h1 h2 h3] at h
            have hlen : rest.length ≤ n := by
              simp only [List.length_cons] at hl; omega
            rw [redirsWellFormed_cons_not t rest ((redirOp_false_iff t).mpr ⟨h1, h2, h3⟩)]
            exact ih rest hlen multi lastSeg i o e v h

/-- When the sequential scan first fails at operator `op`, the error message
is the one specific to `op` (for `>` the variant chosen from the
multi-command and final-segment flags). -/
theorem scanRedirs_error_of_firstBad :
    ∀ (n : Nat) (l : List String), l.length ≤ n →
      ∀ (op : String), firstBadRedir l = some op →
        ∀ (multi lastSeg : Bool) (i o e : Option String),
          scanRedirs multi lastSeg l i o e = .error (msgForRedir op multi lastSeg) := by
  intro n
  induction n with
  | zero =>
    intro l hl op hop multi lastSeg i o e
    have hnil : l = [] := List.length_eq_zero.mp (Nat.le_zero.mp hl)
    subst hnil
    cases hop
  | succ n ih =>
    intro l hl op hop multi lastSeg i o e
    cases l with
    | nil => cases hop
    | cons t rest =>
      by_cases h1 : t = "<"
      · subst h1
        cases rest with
        | nil =>
          rw [firstBadRedir_redir_nil _ (by decide)] at hop
          cases hop
          rw [scanRedirs_in_nil]
          simp [msgForRedir]
        | cons f rest2 =>
          cases hf : isOp f with
          | true =>
            rw [firstBadRedir_redir_op _ _ _ (by decide) hf] at hop
            cases hop
            rw [scanRedirs_in_op multi lastSeg f rest2 i o e hf]
            simp [msgForRedir]
          | false =>
            rw [firstBadRedir_redir_ok _ _ _ (by decide) hf] at hop
            have hlen : rest2.length ≤ n := by
              simp only [List.length_cons] at hl; omega
            rw [scanRedirs_in_ok multi lastSeg f rest2 i o e hf]
            exact ih rest2 hlen op hop multi lastSeg (some f) o e
      · by_cases h2 : t = ">"
        · subst h2
          cases rest with
          | nil =>
            rw [firstBadRedir_redir_nil _ (by decide)] at hop
            cases hop
            rw [scanRedirs_out_nil]
            simp [msgForRedir]
          | cons f rest2 =>
            cases hf : isOp f with
            | true =>
              rw [firstBadRedir_redir_op _ _ _ (by decide) hf] at hop
              cases hop
              rw [scanRedirs_out_op multi lastSeg f rest2 i o e hf]
              simp [msgForRedir]
            | false =>
              rw [firstBadRedir_redir_ok _ _ _ (by decide) hf] at hop
              have hlen : rest2.length ≤ n := by
                simp only [List.length_cons] at hl; omega
              rw [scanRedirs_out_ok multi lastSeg f rest2 i o e hf]
              exact ih rest2 hlen op hop multi lastSeg i (some f) e
        · by_cases h3 : t = "2>"
          · subst h3
            cases rest with
            | nil =>
              rw [firstBadRedir_redir_nil _ (by decide)] at hop
              cases hop
              rw [scanRedirs_err_nil]
              simp [msgForRedir]
            | cons f rest2 =>
              cases hf : isOp f with
              | true =>
                rw [firstBadRedir_redir_op _ _ _ (by decide) hf] at hop
                cases hop
                rw [scanRedirs_err_op multi lastSeg f rest2 i o e hf]
                simp [msgForRedir]
              | false =>
                rw [firstBadRedir_redir_ok _ _ _ (by decide) hf] at hop
                have hlen : rest2.length ≤ n := by
                  simp only [List.length_cons] at hl; omega
                rw [scanRedirs_err_ok multi lastSeg f rest2 i o e hf]
                exact ih rest2 hlen op hop multi lastSeg i o (some f)
          · have hrot : redirOp t = false := (redirOp_false_iff t).mpr ⟨h1, h2, h3⟩
            rw [firstBadRedir_skip t rest hrot] at hop
            have hlen : rest.length ≤ n := by
              simp only [List.length_cons] at hl; omega
            rw [scanRedirs_skip multi lastSeg t rest i o e h1 h2 h3]
            exact ih rest hlen op hop multi lastSeg i o e

/-! ## Lemmas about `build_argv` -/

theorem build_argv_sublist :
    ∀ (n : Nat) (l : List String), l.length ≤ n → List.Sublist (build_argv l) l := by
  intro n
  induction n with
  | zero =>
    intro l hl
    have hnil : l = [] := List.length_eq_zero.mp (Nat.le_zero.mp hl)
    subst hnil
    exact List.Sublist.refl []
  | succ n ih =>
    intro l hl
    cases l with
    | nil => exact List.Sublist.refl []
    | cons t rest =>
      by_cases hr : redirOp t = true
      · cases rest with
        | nil =>
          rw [build_argv_redir_nil t hr]
          exact List.nil_sublist _
        | cons f rest2 =>
          rw [build_argv_redir_cons t f rest2 hr]
          have hlen : rest2.length ≤ n := by
            simp only [List.length_cons] at hl; omega
          exact ((ih rest2 hlen).cons f).cons t
      · by_cases hp : t = "|"
        · subst hp
          rw [build_argv_pipe rest]
          have hlen : rest.length ≤ n := by
            simp only [List.length_cons] at hl; omega
          exact (ih rest hlen).cons "|"
        · rw [build_argv_word t rest (Bool.not_eq_true _ ▸ hr) hp]
          have hlen : rest.length ≤ n := by
            simp only [List.length_cons] at hl; omega
          exact (ih rest hlen).cons₂ t

theorem build_argv_no_op :
    ∀ (n : Nat) (l : List String), l.length ≤ n →
      ∀ a ∈ build_argv l, isOp a = false := by
  intro n
  induction n with
  | zero =>
    intro l hl a ha
    have hnil : l = [] := List.length_eq_zero.mp (Nat.le_zero.mp hl)
    subst hnil
    cases ha
  | succ n ih =>
    intro l hl a ha
    cases l with
    | nil => cases ha
    | cons t rest =>
      by_cases hr : redirOp t = true
      · cases rest with
        | nil => rw [build_argv_redir_nil t hr] at ha; cases ha
        | cons f rest2 =>
          rw [build_argv_redir_cons t f rest2 hr] at ha
          have hlen : rest2.length ≤ n := by
            simp only [List.length_cons] at hl; omega
          exact ih rest2 hlen a ha
      · by_cases hp : t = "|"
        · subst hp
          rw [build_argv_pipe rest] at ha
          have hlen : rest.length ≤ n := by
            simp only [List.length_cons] at hl; omega
          exact ih rest hlen a ha
        · have hrf : redirOp t = false := Bool.not_eq_true _ ▸ hr
          rw [build_argv_word t rest hrf hp] at ha
          rcases List.mem_cons.mp ha with h | h
          · subst h
            rw [isOp_eq_or a, hrf]
            simpa using hp
          · have hlen : rest.length ≤ n := by
              simp only [List.length_cons] at hl; omega
            exact ih rest hlen a h

theorem build_argv_length_of_wf :
    ∀ (n : Nat) (l : List String), l.length ≤ n → redirsWellFormed l = true →
      (∀ x ∈ l, x ≠ "|") →
      l.length = (build_argv l).length + 2 * l.countP (fun t => redirOp t) := by
  intro n
  induction n with
  | zero =>
    intro l hl _ _
    have hnil : l = [] := List.length_eq_zero.mp (Nat.le_zero.mp hl)
    subst hnil
    simp [build_argv_nil]
  | succ n ih =>
    intro l hl hwf hnp
    cases l with
    | nil => simp [build_argv_nil]
    | cons t rest =>
      by_cases hr : redirOp t = true
      · cases rest with
        | nil =>
          rw [redirsWellFormed_redir_nil t hr] at hwf
          cases hwf
        | cons f rest2 =>
          rw [redirsWellFormed_redir_cons t f rest2 hr] at hwf
          have hf : isOp f = false := by
            cases hof : isOp f
            · rfl
            · rw [hof] at hwf; simp at hwf
          have hwf2 : redirsWellFormed (f :: rest2) = true := by
            rw [hf] at hwf; simpa using hwf
          have hrof : redirOp f = false := redirOp_false_of_isOp_false f hf
          have hwfr2 : redirsWellFormed rest2 = true := by
            rwa [redirsWellFormed_cons_not f rest2 hrof] at hwf2
          have hlen : rest2.length ≤ n := by
            simp only [List.length_cons] at hl; omega
          have hnp2 : ∀ x ∈ rest2, x ≠ "|" := fun x hx =>
            hnp x (List.mem_cons_of_mem t (List.mem_cons_of_mem f hx))
          have := ih rest2 hlen hwfr2 hnp2
          rw [build_argv_redir_cons t f rest2 hr]
          simp [List.countP_cons, hr, hrof]
          omega
      · have hrf : redirOp t = false := Bool.not_eq_true _ ▸ hr
        have hp : t ≠ "|" := hnp t (List.mem_cons_self t rest)
        have hwfr : redirsWellFormed rest = true := by
          rwa [redirsWellFormed_cons_not t rest hrf] at hwf
        have hlen : rest.length ≤ n := by
          simp only [List.length_cons] at hl; omega
        have hnp2 : ∀ x ∈ rest, x ≠ "|" := fun x hx => hnp x (List.mem_cons_of_mem t hx)
        have := ih rest hlen hwfr hnp2
        rw [build_argv_word t rest hrf hp]
        simp [List.countP_cons, hrf]
        omega

theorem scanRedirs_error_msg :
    ∀ (n : Nat) (l : List String), l.length ≤ n →
      ∀ (multi lastSeg : Bool) (i o e : Option String) (m : String),
        scanRedirs multi lastSeg l i o e = .error m →
        m = "Input file not specified." ∨ m = outFileMsg multi lastSeg ∨
          m = "Error output file not specified." := by
  intro n
  induction n with
  | zero =>
    intro l hl multi lastSeg i o e m h
    have : l = [] := List.length_eq_zero.mp (Nat.le_zero.mp hl)
    subst this
    simp [scanRedirs] at h
  | succ n ih =>
    intro l hl multi lastSeg i o e m h
    cases l with
    | nil => unfold scanRedirs at h; simp at h
    | cons t rest =>
      unfold scanRedirs at h
      split at h
      · -- t == "<"
        split at h
        · exact Or.inl (Except.error.inj h).symm
        · split at h
          · exact Or.inl (Except.error.inj h).symm
          · rename_i f rest2 _
            have hlen : rest2.length ≤ n := by
              simp only [List.length_cons] at hl; omega
            exact ih rest2 hlen multi lastSeg (some f) o e m h
      · split at h
        · -- t == ">"
          split at h
          · exact Or.inr (Or.inl (Except.error.inj h).symm)
          · split at h
            · exact Or.inr (Or.inl (Except.error.inj h).symm)
            · rename_i f rest2 _
              have hlen : rest2.length ≤ n := by
                simp only [List.length_cons] at hl; omega
              exact ih rest2 hlen multi lastSeg i (some f) e m h
        · split at h
          · -- t == "2>"
            split at h
            · exact Or.inr (Or.inr (Except.error.inj h).symm)
            · split at h
              · exact Or.inr (Or.inr (Except.error.inj h).symm)
              · rename_i f rest2 _
                have hlen : rest2.length ≤ n := by
                  simp only [List.length_cons] at hl; omega
                exact ih rest2 hlen multi lastSeg i o (some f) m h
          · have hlen : rest.length ≤ n := by
              simp only [List.length_cons] at hl; omega
            exact ih rest hlen multi lastSeg i o e m h

/-! ## Lemmas about segment and segment-list processing -/

theorem overrideOpt_right_none (x : Option String) : overrideOpt x none = x := by
  cases x <;> rfl

theorem parseSeg_error_inv (multi lastSeg : Bool) (seg : List String) (m : String)
    (h : parseSeg multi lastSeg seg = .error m) :
    scanRedirs multi lastSeg seg none none none = .error m ∨
      (∃ i o e, scanRedirs multi lastSeg seg none none none = .ok (i, o, e) ∧
        build_argv seg = [] ∧ m = "Command missing after pipe.") := by
  cases hs : scanRedirs multi lastSeg seg none none none with
  | error m2 =>
    rw [parseSeg_of_scan_error multi lastSeg seg m2 hs] at h
    injection h with hm
    subst hm
    exact Or.inl rfl
  | ok v =>
    obtain ⟨i, o, e⟩ := v
    rw [parseSeg_of_scan_ok multi lastSeg seg i o e hs] at h
    by_cases hb : (build_argv seg).isEmpty = true
    · rw [if_pos hb] at h
      injection h with hm
      exact Or.inr ⟨i, o, e, rfl, by simpa using hb, hm.symm⟩
    · rw [if_neg hb] at h
      exact Except.noConfusion h

theorem parseSeg_ok_inv (multi lastSeg : Bool) (seg : List String) (c : Command)
    (h : parseSeg multi lastSeg seg = .ok c) :
    ∃ i o e, scanRedirs multi lastSeg seg none none none = .ok (i, o, e) ∧
      build_argv seg ≠ [] ∧
      c = { argv := build_argv seg, in_file := i, out_file := o, err_file := e } := by
  cases hs : scanRedirs multi lastSeg seg none none none with
  | error m2 =>
    rw [parseSeg_of_scan_error multi lastSeg seg m2 hs] at h
    exact Except.noConfusion h
  | ok v =>
    obtain ⟨i, o, e⟩ := v
    rw [parseSeg_of_scan_ok multi lastSeg seg i o e hs] at h
    by_cases hb : (build_argv seg).isEmpty = true
    · rw [if_pos hb] at h
      exact Except.noConfusion h
    · rw [if_neg hb] at h
      injection h with hm
      exact ⟨i, o, e, rfl, by simpa using hb, hm.symm⟩

theorem parseSeg_ok_of_wf (multi lastSeg : Bool) (seg : List String)
    (hwf : redirsWellFormed seg = true) (hne : build_argv seg ≠ []) :
    parseSeg multi lastSeg seg = .ok (cmdOfSeg seg) := by
  have hs := scanRedirs_ok_of_wf seg.length seg le_rfl hwf multi lastSeg none none none
  rw [parseSeg_of_scan_ok multi lastSeg seg _ _ _ hs,
      if_neg (by simpa using hne)]
  simp [cmdOfSeg, overrideOpt_right_none]

theorem parseSeg_error_msg_mem (multi lastSeg : Bool) (seg : List String) (m : String)
    (h : parseSeg multi lastSeg seg = .error m) :
    m = "Command missing after pipe." ∨ m = "Input file not specified." ∨
      m = outFileMsg multi lastSeg ∨ m = "Error output file not specified." := by
  rcases parseSeg_error_inv multi lastSeg seg m h with hscan | ⟨_, _, _, _, _, hm⟩
  · rcases scanRedirs_error_msg seg.length seg le_rfl multi lastSeg none none none m hscan
      with h1 | h1 | h1
    · exact Or.inr (Or.inl h1)
    · exact Or.inr (Or.inr (Or.inl h1))
    · exact Or.inr (Or.inr (Or.inr h1))
  · exact Or.inl hm

theorem parseSegs_error_at (multi : Bool) :
    ∀ (s1 : List (List String)) (seg : List String) (s2 : List (List String)) (m : String),
      (∀ s ∈ s1, ∃ c, parseSeg multi false s = .ok c) →
      parseSeg multi s2.isEmpty seg = .error m →
      parseSegs multi (s1 ++ seg :: s2) = .error m := by
  intro s1
  induction s1 with
  | nil =>
    intro seg s2 m _ hseg
    simpa using parseSegs_cons_err multi seg s2 m hseg
  | cons s s1' ih =>
    intro seg s2 m hok hseg
    obtain ⟨c, hc⟩ := hok s (List.mem_cons_self _ _)
    have hrec := ih seg s2 m (fun x hx => hok x (List.mem_cons_of_mem _ hx)) hseg
    have hflag : (s1' ++ seg :: s2).isEmpty = false := by simp
    have h1 : parseSeg multi (s1' ++ seg :: s2).isEmpty s = .ok c := by
      rw [hflag]; exact hc
    rw [List.cons_append]
    exact parseSegs_cons_ok_err multi s _ c m h1 hrec

theorem parseSegs_error_decomp (multi : Bool) :
    ∀ (segs : List (List String)) (m : String),
      parseSegs multi segs = .error m →
      ∃ s1 seg s2, segs = s1 ++ seg :: s2 ∧
        (∀ s ∈ s1, ∃ c, parseSeg multi false s = .ok c) ∧
        parseSeg multi s2.isEmpty seg = .error m := by
  intro segs
  induction segs with
  | nil =>
    intro m h
    rw [parseSegs_nil] at h
    exact Except.noConfusion h
  | cons seg rest ih =>
    intro m h
    cases hs : parseSeg multi rest.isEmpty seg with
    | error m2 =>
      rw [parseSegs_cons_err multi seg rest m2 hs] at h
      injection h with hm
      subst hm
      exact ⟨[], seg, rest, rfl, by simp, hs⟩
    | ok c =>
      cases hr : parseSegs multi rest with
      | error m2 =>
        rw [parseSegs_cons_ok_err multi seg rest c m2 hs hr] at h
        injection h with hm
        obtain ⟨s1, sg, s2, heq, hok, herr⟩ := ih m (hm ▸ hr)
        refine ⟨seg :: s1, sg, s2, by rw [heq, List.cons_append], ?_, herr⟩
        intro x hx
        rcases List.mem_cons.mp hx with rfl | hx'
        · refine ⟨c, ?_⟩
          have hfl : rest.isEmpty = false := by rw [heq]; simp
          rwa [hfl] at hs
        · exact hok x hx'
      | ok cs =>
        rw [parseSegs_cons_ok_ok multi seg rest c cs hs hr] at h
        exact Except.noConfusion h

theorem parseSegs_ok_of_all (multi : Bool) :
    ∀ segs : List (List String),
      (∀ s ∈ segs, redirsWellFormed s = true ∧ build_argv s ≠ []) →
      parseSegs multi segs = .ok (segs.map cmdOfSeg) := by
  intro segs
  induction segs with
  | nil => intro _; simpa using parseSegs_nil multi
  | cons seg rest ih =>
    intro hall
    obtain ⟨hwf, hne⟩ := hall seg (List.mem_cons_self _ _)
    have h1 : parseSeg multi rest.isEmpty seg = .ok (cmdOfSeg seg) :=
      parseSeg_ok_of_wf multi rest.isEmpty seg hwf hne
    have h2 := ih (fun s hs => hall s (List.mem_cons_of_mem _ hs))
    rw [List.map_cons]
    exact parseSegs_cons_ok_ok multi seg rest _ _ h1 h2

theorem parseSegs_ok_inv (multi : Bool) :
    ∀ (segs : List (List String)) (cs : List Command),
      parseSegs multi segs = .ok cs →
      cs.length = segs.length ∧
        ∀ c ∈ cs, ∃ seg ∈ segs, ∃ fl, parseSeg multi fl seg = .ok c := by
  intro segs
  induction segs with
  | nil =>
    intro cs h
    rw [parseSegs_nil] at h
    injection h with hm
    subst hm
    exact ⟨rfl, by simp⟩
  | cons seg rest ih =>
    intro cs h
    cases hs : parseSeg multi rest.isEmpty seg with
    | error m2 =>
      rw [parseSegs_cons_err multi seg rest m2 hs] at h
      exact Except.noConfusion h
    | ok c =>
      cases hr : parseSegs multi rest with
      | error m2 =>
        rw [parseSegs_cons_ok_err multi seg rest c m2 hs hr] at h
        exact Except.noConfusion h
      | ok cs' =>
        rw [parseSegs_cons_ok_ok multi seg rest c cs' hs hr] at h
        injection h with hm
        subst hm
        obtain ⟨hlen, hmem⟩ := ih cs' hr
        refine ⟨by simp [hlen], ?_⟩
        intro x hx
        rcases List.mem_cons.mp hx with rfl | hx'
        · exact ⟨seg, List.mem_cons_self _ _, rest.isEmpty, hs⟩
        · obtain ⟨sg, hsg, fl, hok⟩ := hmem x hx'
          exact ⟨sg, List.mem_cons_of_mem _ hsg, fl, hok⟩



/-! ## Lemmas about `parse_tokens` -/

theorem parse_tokens_error_inv (ts : List String) (m : String)
    (h : parse_tokens ts = .error m) :
    ∃ t0 rest, ts = t0 :: rest ∧
      ((t0 = "|" ∧ m = "Command missing after pipe.") ∨
       (t0 ≠ "|" ∧ ts.getLastD "" = "|" ∧ m = "Command missing after pipe.") ∨
       (t0 ≠ "|" ∧ ts.getLastD "" ≠ "|" ∧ hasAdjPipes ts = true ∧
         m = "Empty command between pipes.") ∨
       (t0 ≠ "|" ∧ ts.getLastD "" ≠ "|" ∧ hasAdjPipes ts = false ∧
         parseSegs (decide (1 < countPipes ts + 1)) (splitPipes ts) = .error m)) := by
  cases ts with
  | nil => rw [parse_tokens_nil] at h; exact ParseResult.noConfusion h
  | cons t0 rest =>
    refine ⟨t0, rest, rfl, ?_⟩
    by_cases h1 : t0 = "|"
    · subst h1
      rw [parse_tokens_head_pipe rest] at h
      injection h with hm
      exact Or.inl ⟨rfl, hm.symm⟩
    · by_cases h2 : (t0 :: rest).getLastD "" = "|"
      · rw [parse_tokens_last_pipe t0 rest h1 h2] at h
        injection h with hm
        exact Or.inr (Or.inl ⟨h1, h2, hm.symm⟩)
      · by_cases h3 : hasAdjPipes (t0 :: rest) = true
        · rw [parse_tokens_adj t0 rest h1 h2 h3] at h
          injection h with hm
          exact Or.inr (Or.inr (Or.inl ⟨h1, h2, h3, hm.symm⟩))
        · have h3f : hasAdjPipes (t0 :: rest) = false := by
            cases hv : hasAdjPipes (t0 :: rest)
            · rfl
            · exact absurd hv h3
          cases hp : parseSegs (decide (1 < countPipes (t0 :: rest) + 1))
              (splitPipes (t0 :: rest)) with
          | error m2 =>
            rw [parse_tokens_run_err t0 rest m2 h1 h2 h3f hp] at h
            injection h with hm
            exact Or.inr (Or.inr (Or.inr ⟨h1, h2, h3f, by rw [hm]⟩))
          | ok cs =>
            rw [parse_tokens_run_ok t0 rest cs h1 h2 h3f hp] at h
            exact ParseResult.noConfusion h

theorem parse_tokens_ok_inv (ts : List String) (cs : List Command)
    (h : parse_tokens ts = .ok cs) :
    ∃ t0 rest, ts = t0 :: rest ∧ t0 ≠ "|" ∧ ts.getLastD "" ≠ "|" ∧
      hasAdjPipes ts = false ∧
      parseSegs (decide (1 < countPipes ts + 1)) (splitPipes ts) = .ok cs := by
  cases ts with
  | nil => rw [parse_tokens_nil] at h; exact ParseResult.noConfusion h
  | cons t0 rest =>
    by_cases h1 : t0 = "|"
    · subst h1
      rw [parse_tokens_head_pipe rest] at h
      exact ParseResult.noConfusion h
    · by_cases h2 : (t0 :: rest).getLastD "" = "|"
      · rw [parse_tokens_last_pipe t0 rest h1 h2] at h
        exact ParseResult.noConfusion h
      · by_cases h3 : hasAdjPipes (t0 :: rest) = true
        · rw [parse_tokens_adj t0 rest h1 h2 h3] at h
          exact ParseResult.noConfusion h
        · have h3f : hasAdjPipes (t0 :: rest) = false := by
            cases hv : hasAdjPipes (t0 :: rest)
            · rfl
            · exact absurd hv h3
          cases hp : parseSegs (decide (1 < countPipes (t0 :: rest) + 1))
              (splitPipes (t0 :: rest)) with
          | error m2 =>
            rw [parse_tokens_run_err t0 rest m2 h1 h2 h3f hp] at h
            exact ParseResult.noConfusion h
          | ok cs2 =>
            rw [parse_tokens_run_ok t0 rest cs2 h1 h2 h3f hp] at h
            injection h with hm
            exact ⟨t0, rest, rfl, h1, h2, h3f, by rw [hm]⟩

/-- If the earlier segments all parse and segment `seg` contains the first
invalid redirection operator `op`, the whole parse fails with the message
specific to `op`, the `>` variant selected by whether the pipeline has
several commands and whether `seg` is the final segment. -/
theorem parse_tokens_redir_error (t0 : String) (rest : List String)
    (s1 : List (List String)) (seg : List String) (s2 : List (List String))
    (op : String)
    (hsplit : splitPipes (t0 :: rest) = s1 ++ seg :: s2)
    (hh : t0 ≠ "|") (hl : (t0 :: rest).getLastD "" ≠ "|")
    (ha : hasAdjPipes (t0 :: rest) = false)
    (hok : ∀ s ∈ s1, ∃ c,
      parseSeg (decide (1 < countPipes (t0 :: rest) + 1)) false s = .ok c)
    (hbad : firstBadRedir seg = some op) :
    parse_tokens (t0 :: rest) =
      .error (msgForRedir op (decide (1 < countPipes (t0 :: rest) + 1)) s2.isEmpty) := by
  have hscan := scanRedirs_error_of_firstBad seg.length seg le_rfl op hbad
    (decide (1 < countPipes (t0 :: rest) + 1)) s2.isEmpty none none none
  have hseg := parseSeg_of_scan_error _ _ seg _ hscan
  have hsegs := parseSegs_error_at _ s1 seg s2 _ hok hseg
  rw [← hsplit] at hsegs
  exact parse_tokens_run_err t0 rest _ hh hl ha hsegs


/-! ## Lemmas about the tokenizer -/

theorem tokAux_nil (acc : List Char) : tokAux acc [] = flushTok acc := rfl

theorem isOpChar_iff (c : Char) :
    isOpChar c = true ↔ c = '<' ∨ c = '>' ∨ c = '|' := by
  simp [isOpChar]
  tauto

theorem isWsp_false_of_opChar (c : Char) (h : isOpChar c = true) :
    isWsp c = false := by
  rcases (isOpChar_iff c).mp h with rfl | rfl | rfl <;> decide

theorem beq_two_false_of_opChar (c : Char) (h : isOpChar c = true) :
    (c == '2') = false := by
  rcases (isOpChar_iff c).mp h with rfl | rfl | rfl <;> decide

theorem tokAux_wsp (acc : List Char) (c : Char) (rest : List Char)
    (h : isWsp c = true) :
    tokAux acc (c :: rest) = flushTok acc ++ tokAux [] rest := by
  conv_lhs => unfold tokAux
  simp [h]

theorem tokAux_two (acc rest : List Char) :
    tokAux acc ('2' :: '>' :: rest) = flushTok acc ++ ("2>" :: tokAux [] rest) := by
  have h1 : isWsp '2' = false := by decide
  have h2 : (('2' : Char) == '2' && (('>' :: rest).headD ' ' == '>')) = true := by
    simp [List.headD]
  conv_lhs => unfold tokAux
  simp [h1, h2]

theorem tokAux_opchar (acc : List Char) (c : Char) (rest : List Char)
    (h : isOpChar c = true) :
    tokAux acc (c :: rest) = flushTok acc ++ (String.mk [c] :: tokAux [] rest) := by
  have hw : isWsp c = false := isWsp_false_of_opChar c h
  have h2 : (c == '2') = false := beq_two_false_of_opChar c h
  conv_lhs => unfold tokAux
  simp [hw, h2, h]

theorem tokAux_word (acc : List Char) (c : Char) (rest : List Char)
    (hw : isWsp c = false) (h2 : (c == '2' && rest.headD ' ' == '>') = false)
    (hoc : isOpChar c = false) :
    tokAux acc (c :: rest) = tokAux (acc ++ [c]) rest := by
  conv_lhs => unfold tokAux
  rw [hw, h2, hoc]
  simp

/-- Splitting the tokenizer at a breaking suffix: if `suf` tokenizes to the
fixed tokens `K` after flushing any pending word, and the junction does not
form a `2>` across it (`l1` ending in `2` with `suf` starting in `>`), then
`suf` tokenizes independently of the prefix. -/
theorem tokAux_split_general (suf : List Char) (K : List String)
    (hsuf : ∀ acc, tokAux acc suf = flushTok acc ++ K) :
    ∀ (n : Nat) (l1 : List Char), l1.length ≤ n →
      (suf.headD ' ' = '>' → l1.getLast? ≠ some '2') →
      ∀ acc, tokAux acc (l1 ++ suf) = tokAux acc l1 ++ K := by
  intro n
  induction n with
  | zero =>
    intro l1 hl hcond acc
    have hnil : l1 = [] := List.length_eq_zero.mp (Nat.le_zero.mp hl)
    subst hnil
    simpa [tokAux_nil] using hsuf acc
  | succ n ih =>
    intro l1 hl hcond acc
    cases l1 with
    | nil => simpa [tokAux_nil] using hsuf acc
    | cons c l1' =>
      have hcond' : suf.headD ' ' = '>' → l1'.getLast? ≠ some '2' := by
        intro hh
        cases l1' with
        | nil => simp
        | cons d l1'' =>
          have := hcond hh
          rwa [List.getLast?_cons_cons] at this
      by_cases hw : isWsp c = true
      · have hlen : l1'.length ≤ n := by
          simp only [List.length_cons] at hl; omega
        rw [List.cons_append, tokAux_wsp acc c (l1' ++ suf) hw,
            tokAux_wsp acc c l1' hw, ih l1' hlen hcond' [], List.append_assoc]
      · have hwf : isWsp c = false := by
          cases hv : isWsp c
          · rfl
          · exact absurd hv hw
        cases l1' with
        | nil =>
          by_cases hb : (c == '2' && suf.headD ' ' == '>') = true
          · exfalso
            have hc2 : c = '2' := by
              have := (Bool.and_eq_true _ _).mp hb
              simpa using this.1
            have hhd : suf.headD ' ' = '>' := by
              have := (Bool.and_eq_true _ _).mp hb
              simpa using this.2
            exact hcond hhd (by simp [hc2])
          · have hbf : (c == '2' && suf.headD ' ' == '>') = false := by
              cases hv : (c == '2' && suf.headD ' ' == '>')
              · rfl
              · exact absurd hv hb
            by_cases hoc : isOpChar c = true
            · rw [List.cons_append, List.nil_append, tokAux_opchar acc c suf hoc,
                  tokAux_opchar acc c [] hoc, hsuf []]
              simp [flushTok, tokAux_nil]
            · have hocf : isOpChar c = false := by
                cases hv : isOpChar c
                · rfl
                · exact absurd hv hoc
              have hb0 : (c == '2' && (([] : List Char).headD ' ' == '>')) = false := by
                simp
              rw [List.cons_append, List.nil_append,
                  tokAux_word acc c suf hwf hbf hocf,
                  tokAux_word acc c [] hwf hb0 hocf, hsuf (acc ++ [c]), tokAux_nil]
        | cons d l1'' =>
          have hhd : ((d :: l1'') ++ suf).headD ' ' = (d :: l1'').headD ' ' := rfl
          by_cases hb : (c == '2' && ((d :: l1'').headD ' ' == '>')) = true
          · have hc2 : c = '2' := by
              have := (Bool.and_eq_true _ _).mp hb
              simpa using this.1
            have hd2 : d = '>' := by
              have := (Bool.and_eq_true _ _).mp hb
              simpa using this.2
            subst hc2; subst hd2
            have hcond'' : suf.headD ' ' = '>' → l1''.getLast? ≠ some '2' := by
              intro hh
              cases l1'' with
              | nil => simp
              | cons e l3 =>
                have := hcond hh
                rw [List.getLast?_cons_cons, List.getLast?_cons_cons] at this
                exact this
            have hlen : l1''.length ≤ n := by
              simp only [List.length_cons] at hl; omega
            rw [List.cons_append, List.cons_append, tokAux_two acc (l1'' ++ suf),
                tokAux_two acc l1'', ih l1'' hlen hcond'' []]
            simp
          · have hbf : (c == '2' && ((d :: l1'') ++ suf).headD ' ' == '>') = false := by
              rw [hhd]
              cases hv : (c == '2' && ((d :: l1'').headD ' ' == '>'))
              · rfl
              · exact absurd hv hb
            have hbf2 : (c == '2' && ((d :: l1'').headD ' ' == '>')) = false := by
              cases hv : (c == '2' && ((d :: l1'').headD ' ' == '>'))
              · rfl
              · exact absurd hv hb
            have hlen : (d :: l1'').length ≤ n := by
              simp only [List.length_cons] at hl ⊢; omega
            by_cases hoc : isOpChar c = true
            · rw [List.cons_append, tokAux_opchar acc c ((d :: l1'') ++ suf) hoc,
                  tokAux_opchar acc c (d :: l1'') hoc,
                  ih (d :: l1'') hlen hcond' []]
              simp
            · have hocf : isOpChar c = false := by
                cases hv : isOpChar c
                · rfl
                · exact absurd hv hoc
              rw [List.cons_append, tokAux_word acc c ((d :: l1'') ++ suf) hwf hbf hocf,
                  tokAux_word acc c (d :: l1'') hwf hbf2 hocf,
                  ih (d :: l1'') hlen hcond' (acc ++ [c])]


theorem tokenize_op_split (op : Char) (hop : isOpChar op = true)
    (l1 l2 : List Char) (hcond : op = '>' → l1.getLast? ≠ some '2') :
    tokAux [] (l1 ++ op :: l2) =
      tokAux [] l1 ++ (String.mk [op] :: tokAux [] l2) :=
  tokAux_split_general (op :: l2) (String.mk [op] :: tokAux [] l2)
    (fun acc => tokAux_opchar acc op l2 hop) l1.length l1 le_rfl
    (fun hh => hcond hh) []

theorem tokenize_two_split (l1 l2 : List Char) :
    tokAux [] (l1 ++ '2' :: '>' :: l2) = tokAux [] l1 ++ ("2>" :: tokAux [] l2) :=
  tokAux_split_general ('2' :: '>' :: l2) ("2>" :: tokAux [] l2)
    (fun acc => tokAux_two acc l2) l1.length l1 le_rfl
    (fun hh => absurd hh (by simp)) []

/-! ## Lemmas about the execution model -/

theorem create_pipes_aux_all_ok (pipeOk : Nat → Bool) (hall : ∀ i, pipeOk i = true) :
    ∀ (k s : Nat), create_pipes_aux pipeOk s k = (true, k) := by
  intro k
  induction k with
  | zero => intro s; rfl
  | succ k ih =>
    intro s
    unfold create_pipes_aux
    rw [hall s, ih (s + 1)]
    simp

theorem create_pipes_all_ok (pipeOk : Nat → Bool) (hall : ∀ i, pipeOk i = true)
    (n : Nat) : create_pipes pipeOk n = (true, n) :=
  create_pipes_aux_all_ok pipeOk hall n 0

theorem firstForkFailAux_all_ok (forkOk : Nat → Bool) (hall : ∀ i, forkOk i = true) :
    ∀ (k s : Nat), firstForkFailAux forkOk s k = none := by
  intro k
  induction k with
  | zero => intro s; rfl
  | succ k ih =>
    intro s
    unfold firstForkFailAux
    rw [hall s, ih (s + 1)]
    simp

theorem firstForkFail_all_ok (forkOk : Nat → Bool) (hall : ∀ i, forkOk i = true)
    (n : Nat) : firstForkFail forkOk n = none :=
  firstForkFailAux_all_ok forkOk hall n 0

/-! ## Lemmas about the child-side descriptor setup -/

theorem applyErrRedir_ok_inv (openOk : String → Bool) (c : Command) (s s' : ChildFds)
    (h : applyErrRedir openOk c s = .ok s') :
    s'.stdin = s.stdin ∧ s'.stdout = s.stdout ∧
      (∀ f, c.err_file = some f → s'.stderr = FdBind.file f) := by
  unfold applyErrRedir at h
  cases hc : c.err_file with
  | none =>
    simp only [hc] at h
    injection h with h'
    subst h'
    exact ⟨rfl, rfl, by intro f hf; cases hf⟩
  | some f =>
    simp only [hc] at h
    by_cases ho : openOk f = true
    · rw [if_pos ho] at h
      injection h with h'
      subst h'
      refine ⟨rfl, rfl, ?_⟩
      intro g hg
      injection hg with hg'
      subst hg'
      rfl
    · rw [if_neg ho] at h
      exact Except.noConfusion h

theorem applyOutRedir_ok_inv (openOk : String → Bool) (c : Command) (s s' : ChildFds)
    (h : applyOutRedir openOk c s = .ok s') :
    s'.stdin = s.stdin ∧
      (∀ f, c.out_file = some f → s'.stdout = FdBind.file f) ∧
      (∀ f, c.err_file = some f → s'.stderr = FdBind.file f) := by
  unfold applyOutRedir at h
  cases hc : c.out_file with
  | none =>
    simp only [hc] at h
    obtain ⟨h1, h2, h3⟩ := applyErrRedir_ok_inv openOk c s s' h
    exact ⟨h1, (by intro f hf; cases hf), h3⟩
  | some f =>
    simp only [hc] at h
    by_cases ho : openOk f = true
    · rw [if_pos ho] at h
      obtain ⟨h1, h2, h3⟩ :=
        applyErrRedir_ok_inv openOk c { s with stdout := FdBind.file f } s' h
      refine ⟨h1, ?_, h3⟩
      intro g hg
      injection hg with hg'
      subst hg'
      rw [h2]
    · rw [if_neg ho] at h
      exact Except.noConfusion h

theorem apply_redirections_ok_inv (openOk : String → Bool) (c : Command)
    (s s' : ChildFds) (h : apply_redirections openOk c s = .ok s') :
    (∀ f, c.in_file = some f → s'.stdin = FdBind.file f) ∧
      (c.in_file = none → s'.stdin = s.stdin) ∧
      (∀ f, c.out_file = some f → s'.stdout = FdBind.file f) ∧
      (∀ f, c.err_file = some f → s'.stderr = FdBind.file f) := by
  unfold apply_redirections at h
  cases hc : c.in_file with
  | none =>
    simp only [hc] at h
    obtain ⟨h1, h2, h3⟩ := applyOutRedir_ok_inv openOk c s s' h
    exact ⟨(by intro f hf; cases hf), fun _ => h1, h2, h3⟩
  | some f =>
    simp only [hc] at h
    by_cases ho : openOk f = true
    · rw [if_pos ho] at h
      obtain ⟨h1, h2, h3⟩ :=
        applyOutRedir_ok_inv openOk c { s with stdin := FdBind.file f } s' h
      refine ⟨?_, (by intro hn; cases hn), h2, h3⟩
      intro g hg
      injection hg with hg'
      subst hg'
      rw [h1]
    · rw [if_neg ho] at h
      exact Except.noConfusion h

theorem child_wiring_stdin (cmd_idx n_cmds : Nat) (h0 : 0 < cmd_idx)
    (hn : cmd_idx < n_cmds) :
    (child_wiring cmd_idx n_cmds).stdin = FdBind.pRead (cmd_idx - 1) := by
  have hp : 0 < n_cmds - 1 := by omega
  unfold child_wiring connect_pipes_for_child
  rw [if_pos hp, if_pos h0]
  by_cases h2 : cmd_idx < n_cmds - 1
  · rw [if_pos h2]
  · rw [if_neg h2]

theorem child_wiring_stdout (cmd_idx n_cmds : Nat) (h2 : cmd_idx < n_cmds - 1) :
    (child_wiring cmd_idx n_cmds).stdout = FdBind.pWrite cmd_idx := by
  have hp : 0 < n_cmds - 1 := by omega
  unfold child_wiring connect_pipes_for_child
  rw [if_pos hp]
  by_cases h0 : 0 < cmd_idx
  · rw [if_pos h0, if_pos h2]
  · rw [if_neg h0, if_pos h2]


/-! ## Closed form of the orchestrator -/

theorem execute_pipeline_some_eq (env : ExecEnv) (cmds : List Command) :
    execute_pipeline env (some cmds) =
      (if cmds.length == 0 then { ret := 0, pipesCreated := 0, waited := 0 }
       else if 0 < cmds.length - 1 && !env.pipeAllocOk then
         { ret := -1, pipesCreated := 0, waited := 0 }
       else if 0 < cmds.length - 1 && !(create_pipes env.pipeOk (cmds.length - 1)).1 then
         { ret := -1, pipesCreated := (create_pipes env.pipeOk (cmds.length - 1)).2
         , waited := 0 }
       else if !env.pidsAllocOk then
         { ret := -1, pipesCreated := (create_pipes env.pipeOk (cmds.length - 1)).2
         , waited := 0 }
       else
         match firstForkFail env.forkOk cmds.length with
         | some i =>
           { ret := -1, pipesCreated := (create_pipes env.pipeOk (cmds.length - 1)).2
           , waited := i }
         | none =>
           { ret := lastExitInt (env.status (cmds.length - 1))
           , pipesCreated := (create_pipes env.pipeOk (cmds.length - 1)).2
           , waited := cmds.length }) := rfl

/-! ## Claim theorems -/

/-- C1: in each child of an executed pipeline the pipe endpoints are bound
first (stdin to the read end of pipe `i-1` when `i > 0`, stdout to the write
end of pipe `i` when `i < n-1`) and `apply_redirections` runs strictly
afterwards on that wired state, so whenever the command names an `in_file`
(resp. `out_file`) the stdin (resp. stdout) binding observed at exec time is
the named file and never a pipe endpoint. -/
theorem C1_redirection_overrides_pipe (openOk : String → Bool) (c : Command)
    (i n : Nat) (fds : ChildFds)
    (h : apply_redirections openOk c (child_wiring i n) = .ok fds) :
    (0 < i → i < n → (child_wiring i n).stdin = FdBind.pRead (i - 1)) ∧
    (i < n - 1 → (child_wiring i n).stdout = FdBind.pWrite i) ∧
    (∀ f, c.in_file = some f →
      fds.stdin = FdBind.file f ∧ ∀ j, fds.stdin ≠ FdBind.pRead j) ∧
    (∀ g, c.out_file = some g →
      fds.stdout = FdBind.file g ∧ ∀ j, fds.stdout ≠ FdBind.pWrite j) := by
  obtain ⟨hin, _, hout, _⟩ := apply_redirections_ok_inv openOk c (child_wiring i n) fds h
  refine ⟨fun h0 hn => child_wiring_stdin i n h0 hn,
          fun h2 => child_wiring_stdout i n h2, ?_, ?_⟩
  · intro f hf
    refine ⟨hin f hf, ?_⟩
    intro j
    rw [hin f hf]
    exact fun hx => FdBind.noConfusion hx
  · intro g hg
    refine ⟨hout g hg, ?_⟩
    intro j
    rw [hout g hg]
    exact fun hx => FdBind.noConfusion hx

theorem C1_witness :
    ((child_wiring 1 3).stdin = FdBind.pRead 0) ∧
    (∀ j, (⟨FdBind.file "in.txt", FdBind.file "out.txt",
      FdBind.inherited⟩ : ChildFds).stdin ≠ FdBind.pRead j) := by
  have h := C1_redirection_overrides_pipe (fun _ => true)
    ⟨["cat"], some "in.txt", some "out.txt", none⟩ 1 3
    ⟨FdBind.file "in.txt", FdBind.file "out.txt", FdBind.inherited⟩ rfl
  exact ⟨h.1 (by decide) (by decide), (h.2.2.1 "in.txt" rfl).2⟩

/-- C2: the return value of `execute_pipeline` is fully determined: 0 for a
NULL pipeline or `n_cmds = 0`; -1 when a parent-side system call (the pipe
array allocation or a `pipe` call when pipes are needed, the pid array
allocation, or some `fork`) fails; otherwise the parent waits for every
child and returns the last command's exit status, a signal death reported
as status 1 (`lastExitInt`). -/
theorem C2_execute_return (env : ExecEnv) :
    (execute_pipeline env none = { ret := 0, pipesCreated := 0, waited := 0 }) ∧
    (∀ cmds : List Command, cmds.length = 0 →
      execute_pipeline env (some cmds) = { ret := 0, pipesCreated := 0, waited := 0 }) ∧
    (∀ cmds : List Command, 0 < cmds.length → parent_fail env cmds.length = true →
      (execute_pipeline env (some cmds)).ret = -1) ∧
    (∀ cmds : List Command, 0 < cmds.length → parent_fail env cmds.length = false →
      (execute_pipeline env (some cmds)).ret =
        lastExitInt (env.status (cmds.length - 1)) ∧
      (execute_pipeline env (some cmds)).waited = cmds.length) := by
  refine ⟨rfl, ?_, ?_, ?_⟩
  · intro cmds h0
    have hnil : cmds = [] := List.length_eq_zero.mp h0
    subst hnil
    rfl
  · intro cmds hn hpf
    have hne : (cmds.length == 0) = false := by
      simp only [beq_eq_false_iff_ne, ne_eq]
      omega
    rw [execute_pipeline_some_eq, hne, if_neg (by simp : ¬(false = true))]
    by_cases h1 : (decide (0 < cmds.length - 1) && !env.pipeAllocOk) = true
    · rw [h1, if_pos rfl]
    · have h1f : (decide (0 < cmds.length - 1) && !env.pipeAllocOk) = false := by
        cases hv : (decide (0 < cmds.length - 1) && !env.pipeAllocOk)
        · rfl
        · exact absurd hv h1
      rw [h1f, if_neg (by simp : ¬(false = true))]
      by_cases h2 : (decide (0 < cmds.length - 1) &&
          !(create_pipes env.pipeOk (cmds.length - 1)).1) = true
      · rw [h2, if_pos rfl]
      · have h2f : (decide (0 < cmds.length - 1) &&
            !(create_pipes env.pipeOk (cmds.length - 1)).1) = false := by
          cases hv : (decide (0 < cmds.length - 1) &&
              !(create_pipes env.pipeOk (cmds.length - 1)).1)
          · rfl
          · exact absurd hv h2
        rw [h2f, if_neg (by simp : ¬(false = true))]
        by_cases h3 : (!env.pidsAllocOk) = true
        · rw [h3, if_pos rfl]
        · have h3f : (!env.pidsAllocOk) = false := by
            cases hv : (!env.pidsAllocOk)
            · rfl
            · exact absurd hv h3
          rw [h3f, if_neg (by simp : ¬(false = true))]
          cases hff : firstForkFail env.forkOk cmds.length with
          | some i => rfl
          | none =>
            exfalso
            unfold parent_fail at hpf
            rw [hff] at hpf
            simp at hpf h1f h2f h3f
            simp_all
  · intro cmds hn hpf
    have hne : (cmds.length == 0) = false := by
      simp only [beq_eq_false_iff_ne, ne_eq]
      omega
    unfold parent_fail at hpf
    have hX : (decide (0 < cmds.length - 1) &&
        (!env.pipeAllocOk || !(create_pipes env.pipeOk (cmds.length - 1)).1)) = false ∧
        (!env.pidsAllocOk) = false ∧
        (firstForkFail env.forkOk cmds.length).isSome = false := by
      constructor
      · cases hv : (decide (0 < cmds.length - 1) &&
            (!env.pipeAllocOk || !(create_pipes env.pipeOk (cmds.length - 1)).1))
        · rfl
        · rw [hv] at hpf; simp at hpf
      · constructor
        · cases hv : (!env.pidsAllocOk)
          · rfl
          · rw [hv] at hpf; simp at hpf
        · cases hv : (firstForkFail env.forkOk cmds.length).isSome
          · rfl
          · rw [hv] at hpf; simp at hpf
    obtain ⟨hXa, hXb, hXc⟩ := hX
    have hff : firstForkFail env.forkOk cmds.length = none :=
      Option.not_isSome_iff_eq_none.mp (by simp [hXc])
    have h1f : (decide (0 < cmds.length - 1) && !env.pipeAllocOk) = false := by
      revert hXa
      cases decide (0 < cmds.length - 1) <;>
        cases env.pipeAllocOk <;>
        cases (create_pipes env.pipeOk (cmds.length - 1)).1 <;> simp
    have h2f : (decide (0 < cmds.length - 1) &&
        !(create_pipes env.pipeOk (cmds.length - 1)).1) = false := by
      revert hXa
      cases decide (0 < cmds.length - 1) <;>
        cases env.pipeAllocOk <;>
        cases (create_pipes env.pipeOk (cmds.length - 1)).1 <;> simp
    rw [execute_pipeline_some_eq, hne, if_neg (by simp : ¬(false = true)),
        h1f, if_neg (by simp : ¬(false = true)),
        h2f, if_neg (by simp : ¬(false = true)),
        hXb, if_neg (by simp : ¬(false = true)), hff]
    exact ⟨rfl, rfl⟩

theorem C2_witness :
    (execute_pipeline ⟨true, fun _ => true, true, fun _ => true,
        fun _ => WaitStatus.exited 3⟩
      (some [⟨["ls"], none, none, none⟩, ⟨["wc"], none, none, none⟩])).ret = 3 ∧
    (execute_pipeline ⟨true, fun _ => true, true, fun _ => true,
        fun _ => WaitStatus.exited 3⟩
      (some [⟨["ls"], none, none, none⟩, ⟨["wc"], none, none, none⟩])).waited = 2 := by
  have h := (C2_execute_return ⟨true, fun _ => true, true, fun _ => true,
      fun _ => WaitStatus.exited 3⟩).2.2.2
    [⟨["ls"], none, none, none⟩, ⟨["wc"], none, none, none⟩] (by decide) rfl
  exact ⟨h.1.trans rfl, h.2⟩

/-- C5: when the exec call in a child returns (the image cannot be
replaced), the child emits exactly one fixed diagnostic, chosen by the
command count (`Command not found.` iff `n_cmds = 1`, the pipe-sequence
variant otherwise), and exits with status 127. -/
theorem C5_exec_fail_diagnostic (openOk : String → Bool) (n i : Nat)
    (c : Command) (fds : ChildFds)
    (h : apply_redirections openOk c (child_wiring i n) = .ok fds) :
    run_child openOk false n i c = .exited 127 [exec_fail_msg n] ∧
    (n = 1 → exec_fail_msg n = "Command not found.") ∧
    (n ≠ 1 → exec_fail_msg n = "Command not found in pipe sequence.") := by
  refine ⟨?_, ?_, ?_⟩
  · unfold run_child
    rw [h]
    rfl
  · intro hn
    subst hn
    rfl
  · intro hn
    unfold exec_fail_msg
    rw [if_neg (by simpa using hn)]

theorem C5_witness :
    run_child (fun _ => true) false 2 0 ⟨["nosuch"], none, none, none⟩ =
      .exited 127 ["Command not found in pipe sequence."] := by
  have h := C5_exec_fail_diagnostic (fun _ => true) 2 0
    ⟨["nosuch"], none, none, none⟩ (child_wiring 0 2) rfl
  exact h.1.trans (by rw [h.2.2 (by decide)])

/-- C9: `free_pipeline` always yields the reusable empty state
(`cmds = NULL`, `n_cmds = 0`); calling it again on that result is safe and
a no-op; it is safe on any struct whose stored count does not exceed the
allocation (in particular on a NULL `cmds`, the state after a failed
parse); and every `parse_line` failure path leaves the `out` struct in the
empty state whose release is again safe. -/
theorem C9_free_pipeline_safe :
    (∀ p q : CPipeline, free_pipeline p = some q →
      q = emptyCPipeline ∧ free_pipeline q = some q) ∧
    (∀ p : CPipeline, p.cmds = none → free_pipeline p = some emptyCPipeline) ∧
    (∀ (p : CPipeline) (cs : List CCommand), p.cmds = some cs →
      p.n_cmds ≤ cs.length → free_pipeline p = some emptyCPipeline) ∧
    (∀ (line : String) (m : String), parse_line line = .error m →
      parse_line_out line = emptyCPipeline ∧
      free_pipeline (parse_line_out line) = some emptyCPipeline) := by
  refine ⟨?_, ?_, ?_, ?_⟩
  · intro p q h
    unfold free_pipeline at h
    cases hc : p.cmds with
    | none =>
      simp only [hc] at h
      injection h with h'
      subst h'
      exact ⟨rfl, rfl⟩
    | some cs =>
      simp only [hc] at h
      by_cases hl : p.n_cmds ≤ cs.length
      · rw [if_pos hl] at h
        injection h with h'
        subst h'
        exact ⟨rfl, rfl⟩
      · rw [if_neg hl] at h
        exact Option.noConfusion h
  · intro p hc
    unfold free_pipeline
    simp only [hc]
  · intro p cs hc hl
    unfold free_pipeline
    simp only [hc]
    rw [if_pos hl]
  · intro line m h
    unfold parse_line_out
    rw [h]
    exact ⟨rfl, rfl⟩

theorem C9_witness :
    (emptyCPipeline = emptyCPipeline ∧
      free_pipeline emptyCPipeline = some emptyCPipeline) ∧
    free_pipeline ⟨some [⟨none, none, none, none⟩], 1⟩ = some emptyCPipeline := by
  refine ⟨C9_free_pipeline_safe.1 ⟨some [⟨none, none, none, none⟩], 1⟩
    emptyCPipeline (by decide), ?_⟩
  exact C9_free_pipeline_safe.2.2.1 ⟨some [⟨none, none, none, none⟩], 1⟩
    [⟨none, none, none, none⟩] rfl (by decide)


theorem outFileMsg_ne_cmap (a b : Bool) :
    outFileMsg a b ≠ "Command missing after pipe." := by
  unfold outFileMsg
  split <;> decide

theorem outFileMsg_ne_ecbp (a b : Bool) :
    outFileMsg a b ≠ "Empty command between pipes." := by
  unfold outFileMsg
  split <;> decide

/-- C3 counterexample: on `a | b > <` the failing `>` is followed by the
operator `<`, so `>` is not the final token of the final segment, yet
`parse_line` reports the "after redirection" variant; the claim as stated
predicts the generic message here. -/
theorem C3_counterexample :
    parse_line "a | b > <" = .error "Output file not specified after redirection." ∧
    tokenize "a | b > <" = ["a", "|", "b", ">", "<"] ∧
    (["a", "|", "b", ">", "<"] : List String).getLastD "" ≠ ">" := by decide

/-- C3 (amended): when the parse reaches a segment whose sequential
redirection scan first fails at operator `op` (next token missing or an
operator), `parse_line` fails with the operator-specific message — `Input
file not specified.` for `<`, `Error output file not specified.` for `2>`,
and for `>` the "after redirection" variant exactly when the pipeline has
more than one command and the failing segment is the final one (not only
when `>` is the final token), the generic `Output file not specified.`
otherwise. -/
theorem C3_amended_redirection_messages (line : String) (t0 : String)
    (rest : List String) (s1 : List (List String)) (seg : List String)
    (s2 : List (List String)) (op : String)
    (htok : tokenize line = t0 :: rest)
    (hh : t0 ≠ "|") (hl : (t0 :: rest).getLastD "" ≠ "|")
    (ha : hasAdjPipes (t0 :: rest) = false)
    (hsplit : splitPipes (t0 :: rest) = s1 ++ seg :: s2)
    (hok : ∀ s ∈ s1, ∃ c,
      parseSeg (decide (1 < countPipes (t0 :: rest) + 1)) false s = .ok c)
    (hbad : firstBadRedir seg = some op) :
    parse_line line =
      .error (msgForRedir op (decide (1 < countPipes (t0 :: rest) + 1)) s2.isEmpty) := by
  unfold parse_line
  rw [htok]
  exact parse_tokens_redir_error t0 rest s1 seg s2 op hsplit hh hl ha hok hbad

theorem C3_witness : parse_line "cat <" = .error "Input file not specified." := by
  have h := C3_amended_redirection_messages "cat <" "cat" ["<"] [] ["cat", "<"] [] "<"
    (by decide) (by decide) (by decide) (by decide) (by decide)
    (by intro s hs; cases hs) (by decide)
  exact h.trans (by decide)

/-- C4: a successfully parsed line with exactly `k` pipe tokens yields
`k + 1` commands, and executing that pipeline (when the pipe-array
allocation and all `pipe` calls succeed) creates exactly `k` pipes; in
particular no `|` means one command and zero pipes. -/
theorem C4_pipe_and_command_count (line : String) (cs : List Command) (k : Nat)
    (hp : parse_line line = .ok cs) (hk : countPipes (tokenize line) = k) :
    cs.length = k + 1 ∧
    (∀ env : ExecEnv, env.pipeAllocOk = true → (∀ i, env.pipeOk i = true) →
      (execute_pipeline env (some cs)).pipesCreated = k) := by
  unfold parse_line at hp
  obtain ⟨t0, rest, heq, h1, h2, h3, hsegs⟩ := parse_tokens_ok_inv (tokenize line) cs hp
  obtain ⟨hlen, _⟩ := parseSegs_ok_inv _ _ _ hsegs
  have hsl := splitPipes_length (tokenize line)
  have hcl : cs.length = k + 1 := by rw [hlen, hsl, hk]
  refine ⟨hcl, ?_⟩
  intro env hpa hall
  have hne : (cs.length == 0) = false := by
    simp only [beq_eq_false_iff_ne, ne_eq]
    omega
  have hcp := create_pipes_all_ok env.pipeOk hall (cs.length - 1)
  have h1f : (decide (0 < cs.length - 1) && !env.pipeAllocOk) = false := by
    rw [hpa]; simp
  have h2f : (decide (0 < cs.length - 1) &&
      !(create_pipes env.pipeOk (cs.length - 1)).1) = false := by
    rw [hcp]; simp
  have hcp2 : (create_pipes env.pipeOk (cs.length - 1)).2 = k := by
    rw [hcp]
    show cs.length - 1 = k
    omega
  rw [execute_pipeline_some_eq, hne, if_neg (by simp : ¬(false = true)),
      h1f, if_neg (by simp : ¬(false = true)),
      h2f, if_neg (by simp : ¬(false = true))]
  by_cases h3p : (!env.pidsAllocOk) = true
  · rw [h3p, if_pos rfl]
    exact hcp2
  · have h3f : (!env.pidsAllocOk) = false := by
      cases hv : (!env.pidsAllocOk)
      · rfl
      · exact absurd hv h3p
    rw [h3f, if_neg (by simp : ¬(false = true))]
    cases hff : firstForkFail env.forkOk cs.length with
    | some i => exact hcp2
    | none => exact hcp2

theorem C4_witness :
    ([⟨["a"], none, none, none⟩, ⟨["b"], none, none, none⟩] : List Command).length =
      1 + 1 ∧
    (execute_pipeline ⟨true, fun _ => true, true, fun _ => true,
        fun _ => WaitStatus.exited 0⟩
      (some [⟨["a"], none, none, none⟩, ⟨["b"], none, none, none⟩])).pipesCreated = 1 := by
  have h := C4_pipe_and_command_count "a | b"
    [⟨["a"], none, none, none⟩, ⟨["b"], none, none, none⟩] 1 (by decide) (by decide)
  exact ⟨h.1, h.2 ⟨true, fun _ => true, true, fun _ => true,
    fun _ => WaitStatus.exited 0⟩ rfl (fun _ => rfl)⟩

/-- C6 counterexample: in `< | b` the first segment consists only of a
redirection and its `build_argv` is empty, the line neither starts nor ends
with `|`, yet the parse fails with the redirection message, not with
`Command missing after pipe.` as the claim's "exactly when" requires. -/
theorem C6_counterexample :
    parse_line "< | b" = .error "Input file not specified." ∧
    splitPipes (tokenize "< | b") = [["<"], ["b"]] ∧
    build_argv ["<"] = [] ∧
    tokenize "< | b" ≠ [] ∧
    (tokenize "< | b").headD "" ≠ "|" ∧
    (tokenize "< | b").getLastD "" ≠ "|" := by decide

/-- C6 (amended): `parse_line` fails with `Command missing after pipe.`
exactly when the first token is `|`, or (that failing) the last token is
`|`, or (both failing and no adjacent pipes) some segment whose redirection
scan succeeds — and whose predecessors parse completely — has an empty
argument list; redirection-scan failures in or before that segment take
precedence.  It fails with `Empty command between pipes.` exactly when two
adjacent `|` occur and neither the first-token nor the last-token check
fired; the pipe-placement checks run over the whole token sequence before
any segmentation. -/
theorem C6_amended_empty_command_messages (line : String) :
    (parse_line line = .error "Command missing after pipe." ↔
      ∃ t0 rest, tokenize line = t0 :: rest ∧
        (t0 = "|" ∨
         (t0 ≠ "|" ∧ (t0 :: rest).getLastD "" = "|") ∨
         (t0 ≠ "|" ∧ (t0 :: rest).getLastD "" ≠ "|" ∧
          hasAdjPipes (t0 :: rest) = false ∧
          ∃ s1 seg s2, splitPipes (t0 :: rest) = s1 ++ seg :: s2 ∧
            (∀ s ∈ s1, ∃ c,
              parseSeg (decide (1 < countPipes (t0 :: rest) + 1)) false s = .ok c) ∧
            (∃ v, scanRedirs (decide (1 < countPipes (t0 :: rest) + 1)) s2.isEmpty seg
              none none none = .ok v) ∧
            build_argv seg = []))) ∧
    (parse_line line = .error "Empty command between pipes." ↔
      ∃ t0 rest, tokenize line = t0 :: rest ∧ t0 ≠ "|" ∧
        (t0 :: rest).getLastD "" ≠ "|" ∧ hasAdjPipes (t0 :: rest) = true) := by
  constructor
  · constructor
    · intro h
      unfold parse_line at h
      obtain ⟨t0, rest, heq, hd⟩ := parse_tokens_error_inv (tokenize line) _ h
      rw [heq] at hd
      refine ⟨t0, rest, heq, ?_⟩
      rcases hd with ⟨h1, _⟩ | ⟨h1, h2, _⟩ | ⟨_, _, _, hm⟩ | ⟨h1, h2, h3, hp⟩
      · exact Or.inl h1
      · exact Or.inr (Or.inl ⟨h1, h2⟩)
      · exact absurd hm (by decide)
      · obtain ⟨s1, seg, s2, hsp, hok, herr⟩ := parseSegs_error_decomp _ _ _ hp
        rcases parseSeg_error_inv _ _ _ _ herr with hscan | ⟨i, o, e, hscan, hargv, _⟩
        · rcases scanRedirs_error_msg seg.length seg le_rfl _ _ none none none _ hscan
            with hx | hx | hx
          · exact absurd hx (by decide)
          · exact absurd hx.symm (outFileMsg_ne_cmap _ _)
          · exact absurd hx (by decide)
        · exact Or.inr (Or.inr ⟨h1, h2, h3, s1, seg, s2, hsp, hok,
            ⟨(i, o, e), hscan⟩, hargv⟩)
    · intro ⟨t0, rest, heq, hd⟩
      unfold parse_line
      rw [heq]
      rcases hd with h1 | ⟨h1, h2⟩ | ⟨h1, h2, h3, s1, seg, s2, hsp, hok, ⟨v, hscan⟩, hargv⟩
      · subst h1
        exact parse_tokens_head_pipe rest
      · exact parse_tokens_last_pipe t0 rest h1 h2
      · obtain ⟨i, o, e⟩ := v
        have hseg : parseSeg (decide (1 < countPipes (t0 :: rest) + 1)) s2.isEmpty seg =
            .error "Command missing after pipe." := by
          rw [parseSeg_of_scan_ok _ _ seg i o e hscan, if_pos (by simp [hargv])]
        have hsegs := parseSegs_error_at _ s1 seg s2 _ hok hseg
        rw [← hsp] at hsegs
        exact parse_tokens_run_err t0 rest _ h1 h2 h3 hsegs
  · constructor
    · intro h
      unfold parse_line at h
      obtain ⟨t0, rest, heq, hd⟩ := parse_tokens_error_inv (tokenize line) _ h
      rw [heq] at hd
      refine ⟨t0, rest, heq, ?_⟩
      rcases hd with ⟨_, hm⟩ | ⟨_, _, hm⟩ | ⟨h1, h2, h3, _⟩ | ⟨h1, h2, h3, hp⟩
      · exact absurd hm (by decide)
      · exact absurd hm (by decide)
      · exact ⟨h1, h2, h3⟩
      · obtain ⟨s1, seg, s2, _, _, herr⟩ := parseSegs_error_decomp _ _ _ hp
        rcases parseSeg_error_msg_mem _ _ _ _ herr with hx | hx | hx | hx
        · exact absurd hx (by decide)
        · exact absurd hx (by decide)
        · exact absurd hx.symm (outFileMsg_ne_ecbp _ _)
        · exact absurd hx (by decide)
    · intro ⟨t0, rest, heq, h1, h2, h3⟩
      unfold parse_line
      rw [heq]
      exact parse_tokens_adj t0 rest h1 h2 h3

/-- C7: a command segment whose redirection operators all carry valid
filenames parses without error even when the same operator occurs several
times; each of the three fields records the filename after the last
occurrence of its operator (`cmdOfSeg`), earlier occurrences are discarded,
and as an `Option` field at most one filename per kind is ever set. -/
theorem C7_last_redirection_wins (line : String) (t0 : String) (rest : List String)
    (htok : tokenize line = t0 :: rest)
    (hh : t0 ≠ "|") (hl : (t0 :: rest).getLastD "" ≠ "|")
    (ha : hasAdjPipes (t0 :: rest) = false)
    (hall : ∀ s ∈ splitPipes (t0 :: rest),
      redirsWellFormed s = true ∧ build_argv s ≠ []) :
    parse_line line = .ok ((splitPipes (t0 :: rest)).map cmdOfSeg) := by
  unfold parse_line
  rw [htok]
  exact parse_tokens_run_ok t0 rest _ hh hl ha (parseSegs_ok_of_all _ _ hall)

theorem C7_witness :
    parse_line "cat < a < b > c > d 2> e 2> f" =
      .ok [⟨["cat"], some "b", some "d", some "f"⟩] := by
  have h := C7_last_redirection_wins "cat < a < b > c > d 2> e 2> f" "cat"
    ["<", "a", "<", "b", ">", "c", ">", "d", "2>", "e", "2>", "f"]
    (by decide) (by decide) (by decide) (by decide) (by decide)
  exact h.trans (by decide)

/-- C8: tokenization is insensitive to whitespace adjacent to operators
(`a<b` and `a < b` give the same tokens); `<` and `|` are standalone
operator tokens wherever they occur; `>` is standalone wherever it is not
preceded by `2`; the two-character sequence `2>` is always one operator
token, so a word ends early where a `2>` sequence begins inside it. -/
theorem C8_tokenizer_adjacency :
    (tokenize "a<b" = ["a", "<", "b"] ∧ tokenize "a < b" = ["a", "<", "b"]) ∧
    (∀ l1 l2 : List Char,
      tokAux [] (l1 ++ '<' :: l2) = tokAux [] l1 ++ ("<" :: tokAux [] l2)) ∧
    (∀ l1 l2 : List Char,
      tokAux [] (l1 ++ '|' :: l2) = tokAux [] l1 ++ ("|" :: tokAux [] l2)) ∧
    (∀ l1 l2 : List Char, l1.getLast? ≠ some '2' →
      tokAux [] (l1 ++ '>' :: l2) = tokAux [] l1 ++ (">" :: tokAux [] l2)) ∧
    (∀ l1 l2 : List Char,
      tokAux [] (l1 ++ '2' :: '>' :: l2) = tokAux [] l1 ++ ("2>" :: tokAux [] l2)) ∧
    tokenize "ab2>cd" = ["ab", "2>", "cd"] := by
  refine ⟨⟨by decide, by decide⟩, ?_, ?_, ?_, ?_, by decide⟩
  · intro l1 l2
    exact tokenize_op_split '<' (by decide) l1 l2 (fun hx => absurd hx (by decide))
  · intro l1 l2
    exact tokenize_op_split '|' (by decide) l1 l2 (fun hx => absurd hx (by decide))
  · intro l1 l2 hc
    exact tokenize_op_split '>' (by decide) l1 l2 (fun _ => hc)
  · intro l1 l2
    exact tokenize_two_split l1 l2

theorem C8_witness :
    tokAux [] (['x'] ++ '>' :: ['y']) = tokAux [] ['x'] ++ (">" :: tokAux [] ['y']) :=
  C8_tokenizer_adjacency.2.2.2.1 ['x'] ['y'] (by decide)

/-- C10: every command of a successfully parsed pipeline has a nonempty
argument list (`argv[0]` exists; the list model is NULL-terminated by
construction) whose entries are never operator tokens; the entries form a
sublist of the command's segment obtained by `build_argv`, and the segment
length equals the argv length plus two positions (operator and consumed
filename) for each redirection operator, so no operator or consumed
filename position contributes an argv entry — the `execvp` precondition
holds. -/
theorem C10_argv_invariants (line : String) (cs : List Command)
    (hp : parse_line line = .ok cs) :
    ∀ c ∈ cs, c.argv ≠ [] ∧ (∀ a ∈ c.argv, isOp a = false) ∧
      ∃ seg ∈ splitPipes (tokenize line), c.argv = build_argv seg ∧
        List.Sublist c.argv seg ∧
        seg.length = c.argv.length + 2 * seg.countP (fun t => redirOp t) := by
  unfold parse_line at hp
  obtain ⟨t0, rest, heq, h1, h2, h3, hsegs⟩ := parse_tokens_ok_inv (tokenize line) cs hp
  obtain ⟨hlen, hmem⟩ := parseSegs_ok_inv _ _ _ hsegs
  intro c hc
  obtain ⟨seg, hseg, fl, hok⟩ := hmem c hc
  obtain ⟨i, o, e, hscan, hne, hcv⟩ := parseSeg_ok_inv _ _ _ _ hok
  subst hcv
  refine ⟨hne, ?_, seg, hseg, rfl, ?_, ?_⟩
  · intro a ha
    exact build_argv_no_op seg.length seg le_rfl a ha
  · exact build_argv_sublist seg.length seg le_rfl
  · have hwf := wf_of_scanRedirs_ok seg.length seg le_rfl _ _ none none none _ hscan
    have hnp : ∀ x ∈ seg, x ≠ "|" := splitPipes_no_pipe _ seg hseg
    exact build_argv_length_of_wf seg.length seg le_rfl hwf hnp

theorem C10_witness :
    (⟨["echo", "hi"], none, none, none⟩ : Command).argv ≠ [] ∧
    (∀ a ∈ (⟨["echo", "hi"], none, none, none⟩ : Command).argv, isOp a = false) ∧
    ∃ seg ∈ splitPipes (tokenize "echo hi"),
      (⟨["echo", "hi"], none, none, none⟩ : Command).argv = build_argv seg ∧
      List.Sublist (⟨["echo", "hi"], none, none, none⟩ : Command).argv seg ∧
      seg.length = (⟨["echo", "hi"], none, none, none⟩ : Command).argv.length +
        2 * seg.countP (fun t => redirOp t) :=
  C10_argv_invariants "echo hi" [⟨["echo", "hi"], none, none, none⟩] (by decide)
    ⟨["echo", "hi"], none, none, none⟩ (by decide)

end MyShell
